import Mathlib

/-!
# Verification of the form-validation library core

A shallow embedding of the library's core (the rule engine in
src/core/validator.ts, the field registry in the form-connector module, and
the orchestrator in src/core/index.ts), together with theorems settling the
frozen claims about it.

JavaScript values that flow through the rule engine are modelled by the
inductive type Value; JS numbers by JsNum (a rational or NaN); JS string /
value truthiness is modelled explicitly where the source relies on it.
-/

namespace TsV

/-- A JS number: either NaN or a (finite) numeric value, modelled as a
rational.  Infinity does not arise in the modelled code paths. -/
inductive JsNum where
  | nan : JsNum
  | num (q : ℚ) : JsNum
  deriving DecidableEq

/-- The isNaN test on a JS number. -/
def JsNum.isNaN : JsNum → Bool
  | .nan => true
  | .num _ => false

/-- Strict JS comparison a < b: false when either side is NaN. -/
def JsNum.lt : JsNum → JsNum → Bool
  | .num a, .num b => a < b
  | _, _ => false

/-- Strict JS comparison a > b: false when either side is NaN. -/
def JsNum.gt : JsNum → JsNum → Bool
  | .num a, .num b => b < a
  | _, _ => false

/-- Digits of a decimal literal accumulated into a natural number. -/
def digitsToNat (cs : List Char) : Nat :=
  cs.foldl (fun acc c => acc * 10 + (c.toNat - '0'.toNat)) 0

/-- The rational denoted by an integer part and a fractional digit list. -/
def decimalValue (ip fp : List Char) : ℚ :=
  (digitsToNat ip : ℚ) + (digitsToNat fp : ℚ) / ((10 : ℚ) ^ fp.length)

/-- Modelled JS parseFloat, restricted to plain decimal literals: an optional
sign, then digits with an optional fractional part; parsing stops at the
first character that does not fit (prefix semantics), and an input with no
leading numeric prefix yields NaN. -/
def jsParseFloat (s : String) : JsNum :=
  let cs := s.toList
  let (neg, cs1) :=
    match cs with
    | '-' :: t => (true, t)
    | '+' :: t => (false, t)
    | _ => (false, cs)
  let ip := cs1.takeWhile Char.isDigit
  let rest := cs1.dropWhile Char.isDigit
  let fp :=
    match rest with
    | '.' :: t => t.takeWhile Char.isDigit
    | _ => []
  if ip.isEmpty && fp.isEmpty then .nan
  else
    let q := decimalValue ip fp
    .num (if neg then -q else q)

/-- Modelled HTML valueAsNumber string-to-number conversion, restricted to
plain decimal literals: the whole string must be a decimal literal, anything
else (including the empty string) gives NaN. -/
def jsToNumber (s : String) : JsNum :=
  let cs := s.toList
  let (neg, cs1) :=
    match cs with
    | '-' :: t => (true, t)
    | '+' :: t => (false, t)
    | _ => (false, cs)
  let ip := cs1.takeWhile Char.isDigit
  let rest := cs1.dropWhile Char.isDigit
  let fp :=
    match rest with
    | '.' :: t => if (t.dropWhile Char.isDigit).isEmpty then t else ['!']
    | [] => []
    | _ => ['!']
  if ip.isEmpty && fp.isEmpty then .nan
  else if !(rest.isEmpty) && fp.isEmpty then .nan
  else if fp = ['!'] then .nan
  else
    let q := decimalValue ip (if fp = ['!'] then [] else fp)
    .num (if neg then -q else q)

/-- A JS value as it can appear as the rule engine's extracted field value:
a string, a number, a boolean, a true Array (tracked by its length), a
FileList (tracked by its length), a plain object exposing a numeric length
property (tracked by that length), null, or undefined. -/
inductive Value where
  | vStr (s : String)
  | vNum (n : JsNum)
  | vBool (b : Bool)
  | vArr (len : Nat)
  | vFiles (len : Nat)
  | vObjLen (len : Nat)
  | vNull
  | vUndef
  deriving DecidableEq

/-- JS || on strings: the left operand unless it is falsy (empty). -/
def jsOrStr (a b : String) : String := if a = "" then b else a

/-- Truthiness of a nullable string: null/undefined and the empty string are
falsy. -/
def jsTruthyStr : Option String → Bool
  | none => false
  | some s => s ≠ ""

/-- The result a caller-supplied custom validator can return. -/
inductive CustomResult where
  | bool (b : Bool)
  | str (s : String)

/-- A validation rule, a tagged variant following the rules pushed by
validator.ts.  A pattern rule carries the compiled expression as its test
function; a custom rule carries the caller-supplied predicate. -/
inductive Rule where
  | isString (error : String)
  | required (error : String)
  | min (value : JsNum) (error : String)
  | max (value : JsNum) (error : String)
  | email (error : String)
  | isNumber (error : String)
  | minNumber (value : JsNum) (error : String)
  | maxNumber (value : JsNum) (error : String)
  | pattern (test : String → Bool) (error : String)
  | confirm (field : String) (error : String)
  | isArray (error : String)
  | minLength (value : JsNum) (error : String)
  | maxLength (value : JsNum) (error : String)
  | custom (f : String → CustomResult) (error : String)

/-- Whitespace for the \s class of the inline email regular expression. -/
def isJsSpace (c : Char) : Bool :=
  c = ' ' || c = '\t' || c = '\n' || c = '\r'

/-- Modelled test of the inline email regular expression
(one or more non-space non-at characters, an at sign, one or more non-space
non-at characters, with a dot strictly inside the part after the at sign). -/
def emailTest (s : String) : Bool :=
  let cs := s.toList
  let localPart := cs.takeWhile (fun c => !(c = '@') && !(isJsSpace c))
  match cs.drop localPart.length with
  | '@' :: rest =>
      !localPart.isEmpty &&
      rest.all (fun c => !(c = '@') && !(isJsSpace c)) &&
      (List.range rest.length).any (fun i =>
        0 < i && i + 1 < rest.length && rest.getD i ' ' = '.')
  | _ => false

/-- The read-only view of the surrounding form a rule evaluation may need:
the value of the checked radio button of a named group, the string value of
the first control with a given name attribute (for the confirm rule), and
the regular-expression engine used for compiled patterns. -/
structure FormCtx where
  checkedRadio : Option String → Option String
  valueByName : String → Option String
  regexMatch : String → String → Bool

/-- typeof value === 'string'. -/
def Value.isStr : Value → Bool
  | .vStr _ => true
  | _ => false

/-- Array.isArray(value). -/
def Value.isJsArray : Value → Bool
  | .vArr _ => true
  | _ => false

/-- Strict equality of a JS string with a modelled value. -/
def jsStrEqValue (s : String) : Value → Bool
  | .vStr t => s = t
  | _ => false

/-- checkRule from validator.ts: evaluates one rule against the cached value,
returning the error message exactly as the source does (including returning
the configured message unchanged, even when it is the empty string). -/
def checkRule (ctx : FormCtx) (value : Value) : Rule → Option String
  | .isString e => if !value.isStr then some e else none
  | .required e =>
      if value = .vNull || value = .vUndef || value = .vStr "" ||
         (match value with | .vArr n => n = 0 | _ => false) ||
         (match value with | .vBool b => !b | _ => false) ||
         (match value with | .vFiles n => n = 0 | _ => false) then
        some e
      else none
  | .min v e =>
      match value with
      | .vStr s => if JsNum.lt (.num s.length) v then some e else none
      | _ => none
  | .max v e =>
      match value with
      | .vStr s => if JsNum.gt (.num s.length) v then some e else none
      | _ => none
  | .email e =>
      match value with
      | .vStr s => if !emailTest s then some e else none
      | _ => none
  | .isNumber e =>
      if ((match value with | .vNum n => n.isNaN | _ => true) &&
          (match value with | .vStr s => (jsParseFloat s).isNaN | _ => true)) then
        some e
      else none
  | .minNumber v e =>
      match value with
      | .vStr s => if JsNum.lt (jsParseFloat s) v then some e else none
      | .vNum n => if JsNum.lt n v then some e else none
      | _ => none
  | .maxNumber v e =>
      match value with
      | .vStr s => if JsNum.gt (jsParseFloat s) v then some e else none
      | .vNum n => if JsNum.gt n v then some e else none
      | _ => none
  | .pattern t e =>
      match value with
      | .vStr s => if !t s then some e else none
      | _ => none
  | .isArray e => if !value.isJsArray then some e else none
  | .minLength v e =>
      match value with
      | .vArr n => if JsNum.lt (.num n) v then some e else none
      | _ => none
  | .maxLength v e =>
      match value with
      | .vArr n => if JsNum.gt (.num n) v then some e else none
      | _ => none
  | .confirm fld e =>
      match ctx.valueByName fld with
      | some fieldVal => if !jsStrEqValue fieldVal value then some e else none
      | none => none
  | .custom f e =>
      match value with
      | .vStr s =>
          match f s with
          | .str r => some r
          | .bool b => if b = false then some e else none
      | _ => some e

/-- The DOM-level data of one element, covering every property the embedded
core reads or writes. -/
structure ElemData where
  tag : String := "div"
  typeAttr : String := "text"
  nameAttr : Option String := none
  idAttr : Option String := none
  fieldNameAttr : Option String := none
  forAttr : Option String := none
  classes : List String := []
  value : String := ""
  checked : Bool := false
  files : Value := .vNull
  required : Bool := false
  minLengthAttr : Int := 0
  maxLengthAttr : Int := 0
  minAttr : String := ""
  maxAttr : String := ""
  patternAttr : String := ""
  validationMessage : String := ""
  validityValid : Bool := true
  text : String := ""
  display : String := ""
  dataField : Option String := none
  deriving DecidableEq

/-- getValue from validator.ts: polymorphic value extraction over the
control's kind. -/
def getValue (e : ElemData) (ctx : FormCtx) : Value :=
  if e.tag = "input" then
    if e.typeAttr = "checkbox" then .vBool e.checked
    else if e.typeAttr = "radio" then
      match ctx.checkedRadio e.nameAttr with
      | some s => .vStr s
      | none => .vNull
    else if e.typeAttr = "number" || e.typeAttr = "range" then
      .vNum (jsToNumber e.value)
    else if e.typeAttr = "file" then e.files
    else .vStr e.value
  else if e.tag = "textarea" then .vStr e.value
  else if e.tag = "select" then .vStr e.value
  else .vNull

/-- The mutable state of one rule engine: the control reference, the ordered
rule sequence, and the cached last-observed value. -/
structure ValidatorSt where
  elemId : Nat
  rules : List Rule
  value : Value

/-- A fluent-builder rule attachment: appends one rule to the engine's
ordered list (every builder method of validator.ts pushes onto
this.config.rules and returns the same engine). -/
def ValidatorSt.pushRule (st : ValidatorSt) (r : Rule) : ValidatorSt :=
  { st with rules := st.rules ++ [r] }

/-- Whether an input type is one of the string-capable types the constraint
loader treats as text entry. -/
def isTextType (t : String) : Bool :=
  t = "text" || t = "password" || t = "email" || t = "search" ||
  t = "tel" || t = "url"

/-- A conditional rule push: the if (cond) this.someRule(...) statement
shape of the constraint loaders. -/
def pushIf (st : ValidatorSt) (c : Prop) [Decidable c] (r : Rule) :
    ValidatorSt :=
  if c then st.pushRule r else st

/-- loadInputConstraints from validator.ts: the sequence of implicit-rule
pushes performed for an input control. -/
def loadInputConstraints (ctx : FormCtx) (st : ValidatorSt) (e : ElemData) :
    ValidatorSt :=
  let st := pushIf st (e.required = true)
    (.required (jsOrStr e.validationMessage "Поле обязательно для заполнения"))
  let st := if isTextType e.typeAttr = true then
      pushIf
        (pushIf st (e.minLengthAttr > 0)
          (.min (.num (e.minLengthAttr : ℚ))
            (jsOrStr e.validationMessage "Минимальная длина не достигнута")))
        (e.maxLengthAttr > 0)
        (.max (.num (e.maxLengthAttr : ℚ))
          (jsOrStr e.validationMessage "Максимальная длина превышена"))
    else st
  let st := if e.typeAttr = "number" ∨ e.typeAttr = "range" then
      pushIf
        (pushIf st (e.minAttr ≠ "")
          (.minNumber (jsParseFloat e.minAttr)
            (jsOrStr e.validationMessage "Значение слишком маленькое")))
        (e.maxAttr ≠ "")
        (.maxNumber (jsParseFloat e.maxAttr)
          (jsOrStr e.validationMessage "Значение слишком большое"))
    else st
  let st := pushIf st (isTextType e.typeAttr = true ∧ e.patternAttr ≠ "")
    (.pattern (ctx.regexMatch e.patternAttr)
      (jsOrStr e.validationMessage "Неверный формат"))
  pushIf st (e.typeAttr = "email")
    (.email (jsOrStr e.validationMessage "Некорректный email"))

/-- loadTextAreaConstraints from validator.ts. -/
def loadTextAreaConstraints (st : ValidatorSt) (e : ElemData) : ValidatorSt :=
  let st := pushIf st (e.required = true)
    (.required (jsOrStr e.validationMessage "Поле обязательно для заполнения"))
  let st := pushIf st (e.minLengthAttr > 0)
    (.min (.num (e.minLengthAttr : ℚ))
      (jsOrStr e.validationMessage "Минимальная длина не достигнута"))
  pushIf st (e.maxLengthAttr > 0)
    (.max (.num (e.maxLengthAttr : ℚ))
      (jsOrStr e.validationMessage "Максимальная длина превышена"))

/-- loadConstraintValidation from validator.ts: the type-specific pass
followed by the common required pass. -/
def loadConstraintValidation (ctx : FormCtx) (st : ValidatorSt)
    (e : ElemData) : ValidatorSt :=
  let st := if e.tag = "input" then loadInputConstraints ctx st e
    else if e.tag = "textarea" then loadTextAreaConstraints st e
    else st
  pushIf st
    ((e.tag = "input" ∨ e.tag = "textarea" ∨ e.tag = "select") ∧
      e.required = true)
    (.required (jsOrStr e.validationMessage "Поле обязательно для заполнения"))

/-- The Validator constructor: caches the initial value verbatim and derives
the implicit rules from the control's constraint attributes. -/
def mkValidator (elemId : Nat) (e : ElemData) (ctx : FormCtx) : ValidatorSt :=
  loadConstraintValidation ctx ⟨elemId, [], getValue e ctx⟩ e

/-- The rule loop of validate(): evaluate rules in insertion order and return
the first truthy (non-empty) error; a rule whose check yields the empty
string is skipped, exactly as the if (error) return error of the source. -/
def validateRules (ctx : FormCtx) (v : Value) : List Rule → Option String
  | [] => none
  | r :: rs =>
      let e := checkRule ctx v r
      if jsTruthyStr e then e else validateRules ctx v rs

/-- The native-validity fallback of validate(): an invalid constraint state
on a form control yields its validation message (or a generic fallback). -/
def nativeCheck (e : ElemData) : Option String :=
  if e.tag = "input" || e.tag = "textarea" || e.tag = "select" then
    if !e.validityValid then
      some (jsOrStr e.validationMessage "Неверное значение")
    else none
  else none

/-- validate() from validator.ts: refresh the cached value from the control,
run the rule loop, then the native-validity fallback.  Returns the error (or
null) together with the updated engine state. -/
def ValidatorSt.validateOn (st : ValidatorSt) (e : ElemData) (ctx : FormCtx) :
    Option String × ValidatorSt :=
  let v := getValue e ctx
  let st1 := { st with value := v }
  match validateRules ctx v st.rules with
  | some err => (some err, st1)
  | none => (nativeCheck e, st1)

/-- A context with no radio groups, no named sibling controls, and a
regular-expression engine that matches nothing. -/
def ctx0 : FormCtx := ⟨fun _ => none, fun _ => none, fun _ _ => false⟩

/-- A plain text input holding the given value. -/
def textInput (v : String) : ElemData :=
  { tag := "input", typeAttr := "text", value := v }

lemma validateRules_skip (ctx : FormCtx) (v : Value) (pre l : List Rule)
    (h : ∀ r ∈ pre, jsTruthyStr (checkRule ctx v r) = false) :
    validateRules ctx v (pre ++ l) = validateRules ctx v l := by
  induction pre with
  | nil => rfl
  | cons r rs ih =>
      simp only [List.cons_append, validateRules]
      rw [h r (by simp)]
      simp only [Bool.false_eq_true, if_false]
      exact ih (fun q hq => h q (by simp [hq]))

/-- C1 (counterexample): the claim fails as stated.  A field whose rules are
[Required with message "", Required with message "B"] on an empty text input
has both rules failing on the current value (the checks return their
messages), yet validate() returns the second rule's message "B", because the
if (error) test of the source treats the empty-string message as falsy and
does not short-circuit on the first rule. -/
theorem C1_counterexample :
    checkRule ctx0 (getValue (textInput "") ctx0) (Rule.required "")
        = some "" ∧
    checkRule ctx0 (getValue (textInput "") ctx0) (Rule.required "B")
        = some "B" ∧
    (ValidatorSt.validateOn
        ⟨0, [Rule.required "", Rule.required "B"], Value.vUndef⟩
        (textInput "") ctx0).1 = some "B" ∧
    ("B" : String) ≠ "" :=
  ⟨rfl, rfl, rfl, by decide⟩

/-- C1 (amended): validate() first refreshes the cached value from the
control (the result does not depend on the stale cached value), then
evaluates the rules strictly in insertion order; the first rule whose check
yields a truthy (non-empty) error message short-circuits and that message is
returned, whatever rules follow it; a failing rule whose configured message
is the empty string is skipped. -/
theorem C1_short_circuit (ctx : FormCtx) (e : ElemData) (id : Nat)
    (stale : Value) (pre : List Rule) (A : Rule) (rest : List Rule)
    (hpre : ∀ r ∈ pre, jsTruthyStr (checkRule ctx (getValue e ctx) r) = false)
    (hA : jsTruthyStr (checkRule ctx (getValue e ctx) A) = true) :
    (ValidatorSt.validateOn ⟨id, pre ++ A :: rest, stale⟩ e ctx).1
      = checkRule ctx (getValue e ctx) A := by
  obtain ⟨s, hs, hsne⟩ :
      ∃ s, checkRule ctx (getValue e ctx) A = some s ∧ s ≠ "" := by
    cases hc : checkRule ctx (getValue e ctx) A with
    | none => rw [hc] at hA; simp [jsTruthyStr] at hA
    | some s =>
        refine ⟨s, rfl, ?_⟩
        rw [hc] at hA
        simpa [jsTruthyStr] using hA
  have hskip := validateRules_skip ctx (getValue e ctx) pre (A :: rest) hpre
  unfold ValidatorSt.validateOn
  simp only [hskip, validateRules, hs, jsTruthyStr]
  simp [hsne]

/-- Witness for C1: a concrete engine with rules [Required, Min 3] on an
empty text input returns the Required message. -/
theorem C1_short_circuit_witness :
    (ValidatorSt.validateOn
        ⟨0, [Rule.required "заполните", Rule.min (.num 3) "коротко"],
          Value.vUndef⟩
        (textInput "") ctx0).1 = some "заполните" := by
  have h := C1_short_circuit ctx0 (textInput "") 0 Value.vUndef []
    (Rule.required "заполните") [Rule.min (.num 3) "коротко"]
    (by intro r hr; simp at hr) (by decide)
  exact h.trans (by decide)

/-- C2 (counterexample): the claim fails as stated.  The IsArray rule of the
source checks only Array.isArray, so a FileList of length 2 and a plain
object with numeric length 2 — which the claim says pass — fail with the
rule's message. -/
theorem C2_counterexample :
    checkRule ctx0 (Value.vObjLen 2) (Rule.isArray "Поле должно быть массивом")
        = some "Поле должно быть массивом" ∧
    checkRule ctx0 (Value.vFiles 2) (Rule.isArray "Поле должно быть массивом")
        = some "Поле должно быть массивом" :=
  ⟨rfl, rfl⟩

/-- C2 (amended): the IsArray rule passes exactly on true Arrays; every
other value — including array-like values that merely expose a numeric
length, such as a FileList or a plain object with a length property — fails
the rule. -/
theorem C2_isArray_true_arrays_only (ctx : FormCtx) (v : Value)
    (err : String) :
    checkRule ctx v (Rule.isArray err) = none ↔ ∃ n, v = Value.vArr n := by
  cases v <;> simp [checkRule, Value.isJsArray]

/-- A required plain text input. -/
def requiredTextInput : ElemData :=
  { tag := "input", typeAttr := "text", required := true }

/-- Whether a rule is a Required rule. -/
def isRequiredRule : Rule → Bool
  | .required _ => true
  | _ => false

/-- C3 (counterexample): the claim fails as stated.  For a required text
input, the constructor derives the Required rule twice — once in the
input-specific constraint pass and once in the common pass — not exactly
once. -/
theorem C3_counterexample :
    (mkValidator 0 requiredTextInput ctx0).rules.countP isRequiredRule = 2 ∧
    (2 : Nat) ≠ 1 :=
  ⟨rfl, by decide⟩

/-- One optional rule of the declarative implicit-rule description. -/
def ruleWhen (c : Prop) [Decidable c] (r : Rule) : List Rule :=
  if c then [r] else []

/-- The implicit rules an input control contributes, written declaratively:
required → Required; a positive minlength/maxlength on a string-capable
type → Min/Max; a min/max attribute on a numeric type → MinNumber/MaxNumber;
a pattern on a string-capable type → Pattern; type email → Email. -/
def inputImplicit (ctx : FormCtx) (e : ElemData) : List Rule :=
  ruleWhen (e.required = true)
    (.required (jsOrStr e.validationMessage "Поле обязательно для заполнения"))
  ++ (if isTextType e.typeAttr = true then
      ruleWhen (e.minLengthAttr > 0)
        (.min (.num (e.minLengthAttr : ℚ))
          (jsOrStr e.validationMessage "Минимальная длина не достигнута"))
      ++ ruleWhen (e.maxLengthAttr > 0)
        (.max (.num (e.maxLengthAttr : ℚ))
          (jsOrStr e.validationMessage "Максимальная длина превышена"))
    else [])
  ++ (if e.typeAttr = "number" ∨ e.typeAttr = "range" then
      ruleWhen (e.minAttr ≠ "")
        (.minNumber (jsParseFloat e.minAttr)
          (jsOrStr e.validationMessage "Значение слишком маленькое"))
      ++ ruleWhen (e.maxAttr ≠ "")
        (.maxNumber (jsParseFloat e.maxAttr)
          (jsOrStr e.validationMessage "Значение слишком большое"))
    else [])
  ++ ruleWhen (isTextType e.typeAttr = true ∧ e.patternAttr ≠ "")
    (.pattern (ctx.regexMatch e.patternAttr)
      (jsOrStr e.validationMessage "Неверный формат"))
  ++ ruleWhen (e.typeAttr = "email")
    (.email (jsOrStr e.validationMessage "Некорректный email"))

/-- The implicit rules a textarea control contributes. -/
def textareaImplicit (e : ElemData) : List Rule :=
  ruleWhen (e.required = true)
    (.required (jsOrStr e.validationMessage "Поле обязательно для заполнения"))
  ++ ruleWhen (e.minLengthAttr > 0)
    (.min (.num (e.minLengthAttr : ℚ))
      (jsOrStr e.validationMessage "Минимальная длина не достигнута"))
  ++ ruleWhen (e.maxLengthAttr > 0)
    (.max (.num (e.maxLengthAttr : ℚ))
      (jsOrStr e.validationMessage "Максимальная длина превышена"))

/-- The full implicit rule sequence the constructor derives: the
type-specific contribution, then the common pass — which derives Required a
second time for a required input or textarea control. -/
def implicitRulesOf (ctx : FormCtx) (e : ElemData) : List Rule :=
  (if e.tag = "input" then inputImplicit ctx e
   else if e.tag = "textarea" then textareaImplicit e
   else [])
  ++ ruleWhen
    ((e.tag = "input" ∨ e.tag = "textarea" ∨ e.tag = "select") ∧
      e.required = true)
    (.required (jsOrStr e.validationMessage "Поле обязательно для заполнения"))

/-- The fluent builder chain: each rule-attaching call appends its rule to
the same engine. -/
def applyBuilder (st : ValidatorSt) (ops : List Rule) : ValidatorSt :=
  ops.foldl ValidatorSt.pushRule st

lemma applyBuilder_rules (st : ValidatorSt) (ops : List Rule) :
    (applyBuilder st ops).rules = st.rules ++ ops := by
  induction ops generalizing st with
  | nil => simp [applyBuilder]
  | cons r rs ih =>
      simp [applyBuilder] at ih ⊢
      rw [ih]
      simp [ValidatorSt.pushRule]

lemma pushIf_rules (st : ValidatorSt) (c : Prop) [Decidable c] (r : Rule) :
    (pushIf st c r).rules = st.rules ++ ruleWhen c r := by
  by_cases h : c <;> simp [pushIf, ruleWhen, h, ValidatorSt.pushRule]

lemma loadInputConstraints_rules (ctx : FormCtx) (st : ValidatorSt)
    (e : ElemData) :
    (loadInputConstraints ctx st e).rules = st.rules ++ inputImplicit ctx e := by
  unfold loadInputConstraints inputImplicit
  by_cases h1 : isTextType e.typeAttr = true <;>
    by_cases h2 : e.typeAttr = "number" ∨ e.typeAttr = "range" <;>
      simp [h1, h2, pushIf_rules, List.append_assoc]

lemma loadTextAreaConstraints_rules (st : ValidatorSt) (e : ElemData) :
    (loadTextAreaConstraints st e).rules = st.rules ++ textareaImplicit e := by
  unfold loadTextAreaConstraints textareaImplicit
  simp [pushIf_rules, List.append_assoc]

lemma mkValidator_rules (id : Nat) (ctx : FormCtx) (e : ElemData) :
    (mkValidator id e ctx).rules = implicitRulesOf ctx e := by
  unfold mkValidator loadConstraintValidation implicitRulesOf
  by_cases h1 : e.tag = "input" <;> by_cases h2 : e.tag = "textarea" <;>
    simp [h1, h2, pushIf_rules, loadInputConstraints_rules,
      loadTextAreaConstraints_rules, List.append_assoc]

/-- C3 (amended): at engine construction, the implicit rules are derived
from the control's native constraint attributes exactly as listed by the
spec (required → Required, positive minlength/maxlength on a string-capable
type → Min/Max, min/max on numeric types → MinNumber/MaxNumber, pattern →
Pattern, type email → Email), except that Required is derived twice — not
once — for a required input or textarea control; and all implicit rules
precede every explicitly attached rule in the evaluated sequence. -/
theorem C3_implicit_rules (id : Nat) (ctx : FormCtx) (e : ElemData)
    (ops : List Rule) :
    (applyBuilder (mkValidator id e ctx) ops).rules
        = implicitRulesOf ctx e ++ ops ∧
    (mkValidator id e ctx).rules = implicitRulesOf ctx e ∧
    ((e.tag = "input" ∨ e.tag = "textarea") → e.required = true →
      (mkValidator id e ctx).rules.countP isRequiredRule = 2) := by
  refine ⟨?_, mkValidator_rules id ctx e, ?_⟩
  · rw [applyBuilder_rules, mkValidator_rules]
  · intro htag hreq
    rw [mkValidator_rules]
    rcases htag with ht | ht <;>
      simp [implicitRulesOf, inputImplicit, textareaImplicit, ruleWhen, ht,
        hreq, List.countP_append, List.countP_cons, isRequiredRule,
        apply_ite (List.countP isRequiredRule)]

/-- Witness for C3: the amended derivation evaluated on a concrete required
text input, with one explicit rule appended afterwards. -/
theorem C3_implicit_rules_witness :
    (mkValidator 0 requiredTextInput ctx0).rules.countP isRequiredRule = 2 ∧
    (applyBuilder (mkValidator 0 requiredTextInput ctx0)
        [Rule.email "err"]).rules
      = implicitRulesOf ctx0 requiredTextInput ++ [Rule.email "err"] := by
  have h := C3_implicit_rules 0 ctx0 requiredTextInput [Rule.email "err"]
  exact ⟨h.2.2 (Or.inl rfl) rfl, h.1⟩

/-! ## The field registry (FormConnector.collectFields) -/

/-- JS Map membership over an insertion-ordered association list. -/
def mapHas {α : Type} (m : List (String × α)) (k : String) : Bool :=
  m.any (fun p => p.1 = k)

/-- JS Map get. -/
def mapGet {α : Type} (m : List (String × α)) (k : String) : Option α :=
  (m.find? (fun p => p.1 = k)).map Prod.snd

/-- JS Map set: an existing key keeps its original insertion position; a new
key is appended. -/
def mapSet {α : Type} (m : List (String × α)) (k : String) (v : α) :
    List (String × α) :=
  if mapHas m k then m.map (fun p => if p.1 = k then (k, v) else p)
  else m ++ [(k, v)]

lemma mapGet_cons {α : Type} (p : String × α) (rest : List (String × α))
    (k : String) :
    mapGet (p :: rest) k = if p.1 = k then some p.2 else mapGet rest k := by
  by_cases h : p.1 = k <;> simp [mapGet, List.find?_cons, h]

lemma mapHas_cons {α : Type} (p : String × α) (rest : List (String × α))
    (k : String) :
    mapHas (p :: rest) k = if p.1 = k then true else mapHas rest k := by
  by_cases h : p.1 = k <;> simp [mapHas, List.any_cons, h]

lemma mapGet_map_set_self {α : Type} {m : List (String × α)} {k : String}
    {v : α} (h : mapHas m k = true) :
    mapGet (m.map (fun p => if p.1 = k then (k, v) else p)) k = some v := by
  induction m with
  | nil => simp [mapHas] at h
  | cons p rest ih =>
      rw [mapHas_cons] at h
      by_cases hp : p.1 = k
      · simp only [List.map_cons, if_pos hp, mapGet_cons]
        simp
      · rw [if_neg hp] at h
        simp only [List.map_cons, if_neg hp, mapGet_cons, if_neg hp]
        exact ih h

lemma mapGet_map_set_ne {α : Type} (m : List (String × α)) {k k2 : String}
    (v : α) (h : k2 ≠ k) :
    mapGet (m.map (fun p => if p.1 = k then (k, v) else p)) k2
      = mapGet m k2 := by
  induction m with
  | nil => rfl
  | cons p rest ih =>
      by_cases hp : p.1 = k
      · simp only [List.map_cons, if_pos hp, mapGet_cons]
        rw [if_neg (by simpa using fun q => h q.symm),
          if_neg (by rw [hp]; exact fun q => h q.symm)]
        exact ih
      · simp only [List.map_cons, if_neg hp, mapGet_cons]
        by_cases hq : p.1 = k2 <;> simp [hq, ih]

lemma mapGet_append_single {α : Type} (m : List (String × α)) (k k2 : String)
    (v : α) :
    mapGet (m ++ [(k, v)]) k2
      = if mapHas m k2 then mapGet m k2
        else if k = k2 then some v else none := by
  induction m with
  | nil => simp [mapGet_cons, mapHas, mapGet]
  | cons p rest ih =>
      simp only [List.cons_append, mapGet_cons, mapHas_cons]
      by_cases hp : p.1 = k2 <;> simp [hp, ih]

lemma mapHas_of_get {α : Type} {m : List (String × α)} {k : String} {v : α}
    (h : mapGet m k = some v) : mapHas m k = true := by
  induction m with
  | nil => simp [mapGet] at h
  | cons p rest ih =>
      rw [mapGet_cons] at h
      rw [mapHas_cons]
      by_cases hp : p.1 = k
      · simp [hp]
      · rw [if_neg hp] at h
        rw [if_neg hp]
        exact ih h

lemma mapGet_mapSet_self {α : Type} (m : List (String × α)) (k : String)
    (v : α) : mapGet (mapSet m k v) k = some v := by
  unfold mapSet
  split_ifs with hh
  · exact mapGet_map_set_self hh
  · rw [mapGet_append_single]
    simp [hh]

lemma mapGet_mapSet_ne {α : Type} (m : List (String × α)) {k k2 : String}
    (v : α) (h : k2 ≠ k) : mapGet (mapSet m k v) k2 = mapGet m k2 := by
  unfold mapSet
  split_ifs with hh
  · exact mapGet_map_set_ne m v h
  · rw [mapGet_append_single]
    split_ifs with h1 h2
    · rfl
    · exact absurd h2.symm h
    · cases hg : mapGet m k2 with
      | none => rfl
      | some w =>
          exact absurd (mapHas_of_get hg) (by simpa using h1)

lemma mapHas_map_set {α : Type} (m : List (String × α)) (k k2 : String)
    (v : α) :
    mapHas (m.map (fun p => if p.1 = k2 then (k2, v) else p)) k
      = mapHas m k := by
  induction m with
  | nil => rfl
  | cons p rest ih =>
      by_cases hp : p.1 = k2
      · simp only [List.map_cons, if_pos hp, mapHas_cons, hp]
        by_cases hq : k2 = k <;> simp [hq, ih]
      · simp only [List.map_cons, if_neg hp, mapHas_cons]
        by_cases hq : p.1 = k <;> simp [hq, ih]

lemma mapHas_mapSet_mono {α : Type} {m : List (String × α)} {k k2 : String}
    {v : α} (h : mapHas m k = true) : mapHas (mapSet m k2 v) k = true := by
  unfold mapSet
  split_ifs with hh
  · rw [mapHas_map_set]; exact h
  · simp only [mapHas, List.any_append, Bool.or_eq_true]
    exact Or.inl (by simpa [mapHas] using h)

lemma mem_key_unique {l : List (Nat × ElemData)}
    (h : (l.map Prod.fst).Nodup) {i : Nat} {a b : ElemData}
    (ha : (i, a) ∈ l) (hb : (i, b) ∈ l) : a = b := by
  induction l with
  | nil => cases ha
  | cons p rest ih =>
      have h' : (p.1 :: rest.map Prod.fst).Nodup := by
        rw [List.map_cons] at h; exact h
      have hnd := List.nodup_cons.mp h'
      rcases List.mem_cons.mp ha with ha1 | ha2 <;>
        rcases List.mem_cons.mp hb with hb1 | hb2
      · exact congrArg Prod.snd (ha1.trans hb1.symm)
      · exfalso
        have : p.1 ∈ rest.map Prod.fst :=
          List.mem_map.mpr ⟨(i, b), hb2, by rw [← ha1]⟩
        exact hnd.1 this
      · exfalso
        have : p.1 ∈ rest.map Prod.fst :=
          List.mem_map.mpr ⟨(i, a), ha2, by rw [← hb1]⟩
        exact hnd.1 this
      · exact ih hnd.2 ha2 hb2

/-- Eligible second-pass controls: inputs other than submit/button/reset,
textareas, selects, outputs. -/
def isEligibleControl (e : ElemData) : Bool :=
  (e.tag = "input" &&
    !(e.typeAttr = "submit" || e.typeAttr = "button" || e.typeAttr = "reset"))
  || e.tag = "textarea" || e.tag = "select" || e.tag = "output"

/-- One step of the first pass: an element with a truthy field-name
attribute is registered under that literal value. -/
def pass1Step (m : List (String × Nat)) (i : Nat) (e : ElemData) :
    List (String × Nat) :=
  match e.fieldNameAttr with
  | some fn => if fn = "" then m else mapSet m fn i
  | none => m

/-- First pass of collectFields over the form's elements in document
order. -/
def collectPass1 : List (Nat × ElemData) → List (String × Nat) →
    List (String × Nat)
  | [], m => m
  | (i, e) :: rest, m => collectPass1 rest (pass1Step m i e)

/-- The id fallback of the second-pass registration. -/
def pass2AssignId (m : List (String × Nat)) (i : Nat) (e : ElemData) :
    List (String × Nat) :=
  match e.idAttr with
  | some idv => if idv ≠ "" ∧ mapHas m idv = false then mapSet m idv i else m
  | none => m

/-- The name/id registration of one second-pass control: under its name if
that name is truthy and unclaimed, else under its id if truthy and
unclaimed. -/
def pass2Assign (m : List (String × Nat)) (i : Nat) (e : ElemData) :
    List (String × Nat) :=
  match e.nameAttr with
  | some n =>
      if n ≠ "" ∧ mapHas m n = false then mapSet m n i
      else pass2AssignId m i e
  | none => pass2AssignId m i e

/-- One step of the second pass: eligible controls not carrying a field-name
attribute are registered by name, else id. -/
def pass2Step (m : List (String × Nat)) (i : Nat) (e : ElemData) :
    List (String × Nat) :=
  if isEligibleControl e = true then
    (if e.fieldNameAttr.isSome then m else pass2Assign m i e)
  else m

/-- Second pass of collectFields. -/
def collectPass2 : List (Nat × ElemData) → List (String × Nat) →
    List (String × Nat)
  | [], m => m
  | (i, e) :: rest, m => collectPass2 rest (pass2Step m i e)

/-- collectFields from the form-connector module: the field-name pass over
the form's elements in document order, then the name/id pass. -/
def collectFields (elems : List (Nat × ElemData)) : List (String × Nat) :=
  collectPass2 elems (collectPass1 elems [])

lemma mapGet_of_has {α : Type} {m : List (String × α)} {k : String}
    (h : mapHas m k = true) : ∃ v, mapGet m k = some v := by
  induction m with
  | nil => simp [mapHas] at h
  | cons p rest ih =>
      rw [mapHas_cons] at h
      rw [mapGet_cons]
      by_cases hp : p.1 = k
      · exact ⟨p.2, by rw [if_pos hp]⟩
      · rw [if_neg hp] at h
        rw [if_neg hp]
        exact ih h

lemma pass1Step_get_skip {m : List (String × Nat)} {i : Nat} {e : ElemData}
    {k : String} (h : e.fieldNameAttr ≠ some k) :
    mapGet (pass1Step m i e) k = mapGet m k := by
  cases hfn : e.fieldNameAttr with
  | none => simp [pass1Step, hfn]
  | some fn =>
      have hne : fn ≠ k := fun hq => h (by rw [hfn, hq])
      by_cases h0 : fn = ""
      · simp [pass1Step, hfn, h0]
      · simp only [pass1Step, hfn, if_neg h0]
        exact mapGet_mapSet_ne m i (fun hq => hne hq.symm)

lemma collectPass1_get_skip {k : String} :
    ∀ (elems : List (Nat × ElemData)) (m : List (String × Nat)),
      (∀ q ∈ elems, q.2.fieldNameAttr ≠ some k) →
      mapGet (collectPass1 elems m) k = mapGet m k := by
  intro elems
  induction elems with
  | nil => intro m _; rfl
  | cons q0 rest ih =>
      intro m h
      obtain ⟨i0, e0⟩ := q0
      show mapGet (collectPass1 rest (pass1Step m i0 e0)) k = mapGet m k
      rw [ih _ (fun q hq => h q (List.mem_cons_of_mem _ hq))]
      exact pass1Step_get_skip (h (i0, e0) (List.mem_cons_self _ _))

lemma pass1Step_has_mono {m : List (String × Nat)} {i : Nat} {e : ElemData}
    {k : String} (h : mapHas m k = true) :
    mapHas (pass1Step m i e) k = true := by
  cases hfn : e.fieldNameAttr with
  | none => simpa [pass1Step, hfn] using h
  | some fn =>
      by_cases h0 : fn = ""
      · simpa [pass1Step, hfn, h0] using h
      · simpa [pass1Step, hfn, h0] using mapHas_mapSet_mono h

lemma collectPass1_has_mono {k : String} :
    ∀ (elems : List (Nat × ElemData)) (m : List (String × Nat)),
      mapHas m k = true → mapHas (collectPass1 elems m) k = true := by
  intro elems
  induction elems with
  | nil => intro m h; exact h
  | cons q0 rest ih =>
      intro m h
      obtain ⟨i0, e0⟩ := q0
      exact ih _ (pass1Step_has_mono h)

lemma collectPass1_get_claimed {k : String} {i : Nat} {e : ElemData}
    (hk : k ≠ "") :
    ∀ (elems : List (Nat × ElemData)) (m : List (String × Nat)),
      (i, e) ∈ elems → e.fieldNameAttr = some k →
      (∀ q ∈ elems, q.2.fieldNameAttr = some k → q = (i, e)) →
      (elems.map Prod.fst).Nodup →
      mapGet (collectPass1 elems m) k = some i := by
  intro elems
  induction elems with
  | nil => intro m hmem; cases hmem
  | cons q0 rest ih =>
      intro m hmem hfn huniq hnodup
      have hnd : q0.1 ∉ rest.map Prod.fst ∧ (rest.map Prod.fst).Nodup := by
        rw [List.map_cons] at hnodup
        exact List.nodup_cons.mp hnodup
      rcases List.mem_cons.mp hmem with heq | hmem2
      · have hq0 : q0 = (i, e) := heq.symm
        subst hq0
        show mapGet (collectPass1 rest (pass1Step m i e)) k = some i
        have hnone : ∀ q ∈ rest, q.2.fieldNameAttr ≠ some k := by
          intro q hq hqfn
          have hq1 : q = (i, e) := huniq q (List.mem_cons_of_mem _ hq) hqfn
          subst hq1
          exact hnd.1 (List.mem_map.mpr ⟨(i, e), hq, rfl⟩)
        rw [collectPass1_get_skip rest _ hnone]
        simp only [pass1Step, hfn, if_neg hk]
        exact mapGet_mapSet_self m k i
      · exact ih _ hmem2 hfn
          (fun q hq hqfn => huniq q (List.mem_cons_of_mem _ hq) hqfn) hnd.2

lemma pass1Step_get_source {m : List (String × Nat)} {i : Nat} {e : ElemData}
    {k : String} {j : Nat} (h : mapGet (pass1Step m i e) k = some j) :
    mapGet m k = some j ∨ (j = i ∧ e.fieldNameAttr = some k ∧ k ≠ "") := by
  cases hfn : e.fieldNameAttr with
  | none => simp only [pass1Step, hfn] at h; exact Or.inl h
  | some fn =>
      simp only [pass1Step, hfn] at h
      by_cases h0 : fn = ""
      · rw [if_pos h0] at h; exact Or.inl h
      · rw [if_neg h0] at h
        by_cases hfk : fn = k
        · subst hfk
          rw [mapGet_mapSet_self] at h
          exact Or.inr ⟨(Option.some.inj h).symm, rfl, h0⟩
        · rw [mapGet_mapSet_ne m i (fun hq => hfk hq.symm)] at h
          exact Or.inl h

lemma collectPass1_get_source {k : String} {j : Nat} :
    ∀ (elems : List (Nat × ElemData)) (m : List (String × Nat)),
      mapGet (collectPass1 elems m) k = some j →
      mapGet m k = some j ∨
        ∃ q ∈ elems, q.1 = j ∧ q.2.fieldNameAttr = some k ∧ k ≠ "" := by
  intro elems
  induction elems with
  | nil => intro m h; exact Or.inl h
  | cons q0 rest ih =>
      intro m h
      obtain ⟨i0, e0⟩ := q0
      rcases ih _ h with h1 | ⟨q, hq, hqj, hqfn, hk⟩
      · rcases pass1Step_get_source h1 with h2 | ⟨hji, hfn, hk⟩
        · exact Or.inl h2
        · exact Or.inr ⟨(i0, e0), List.mem_cons_self _ _, hji.symm, hfn, hk⟩
      · exact Or.inr ⟨q, List.mem_cons_of_mem _ hq, hqj, hqfn, hk⟩

lemma collectPass1_has {k : String} (hk : k ≠ "") :
    ∀ (elems : List (Nat × ElemData)) (m : List (String × Nat)),
      (∃ q ∈ elems, q.2.fieldNameAttr = some k) →
      mapHas (collectPass1 elems m) k = true := by
  intro elems
  induction elems with
  | nil => rintro m ⟨q, hq, _⟩; cases hq
  | cons q0 rest ih =>
      rintro m ⟨q, hq, hqfn⟩
      rcases List.mem_cons.mp hq with heq | hmem
      · subst heq
        obtain ⟨i0, e0⟩ := q
        have hqfn2 : e0.fieldNameAttr = some k := hqfn
        show mapHas (collectPass1 rest (pass1Step m i0 e0)) k = true
        refine collectPass1_has_mono rest _ ?_
        simp only [pass1Step, hqfn2, if_neg hk]
        exact mapHas_of_get (mapGet_mapSet_self m k _)
      · obtain ⟨i0, e0⟩ := q0
        exact ih _ ⟨q, hmem, hqfn⟩

lemma pass2Assign_preserve {m : List (String × Nat)} {k : String} {j i : Nat}
    {e : ElemData} (h : mapGet m k = some j) :
    mapGet (pass2Assign m i e) k = some j := by
  have hset : ∀ (n : String), (n ≠ "" ∧ mapHas m n = false) →
      mapGet (mapSet m n i) k = some j := by
    intro n hn
    by_cases hnk : n = k
    · subst hnk
      rw [mapHas_of_get h] at hn
      exact absurd hn.2 (by simp)
    · rw [mapGet_mapSet_ne m i (fun hq => hnk hq.symm)]
      exact h
  have hid : mapGet (pass2AssignId m i e) k = some j := by
    cases hia : e.idAttr with
    | some idv =>
        by_cases hc2 : idv ≠ "" ∧ mapHas m idv = false
        · simp only [pass2AssignId, hia, if_pos hc2]
          exact hset idv hc2
        · simpa [pass2AssignId, hia, hc2] using h
    | none => simpa [pass2AssignId, hia] using h
  cases hna : e.nameAttr with
  | some n =>
      by_cases hc : n ≠ "" ∧ mapHas m n = false
      · simp only [pass2Assign, hna, if_pos hc]
        exact hset n hc
      · simp only [pass2Assign, hna, if_neg hc]
        exact hid
  | none =>
      simp only [pass2Assign, hna]
      exact hid

lemma pass2Assign_get_source {m : List (String × Nat)} {k : String}
    {j i : Nat} {e : ElemData}
    (h : mapGet (pass2Assign m i e) k = some j) :
    mapGet m k = some j ∨ j = i := by
  have hset : ∀ (n : String), mapGet (mapSet m n i) k = some j →
      mapGet m k = some j ∨ j = i := by
    intro n hn
    by_cases hnk : n = k
    · subst hnk
      rw [mapGet_mapSet_self] at hn
      exact Or.inr (Option.some.inj hn).symm
    · rw [mapGet_mapSet_ne m i (fun hq => hnk hq.symm)] at hn
      exact Or.inl hn
  have hid : mapGet (pass2AssignId m i e) k = some j →
      mapGet m k = some j ∨ j = i := by
    intro hh
    cases hia : e.idAttr with
    | some idv =>
        simp only [pass2AssignId, hia] at hh
        by_cases hc2 : idv ≠ "" ∧ mapHas m idv = false
        · rw [if_pos hc2] at hh; exact hset idv hh
        · rw [if_neg hc2] at hh; exact Or.inl hh
    | none => simp only [pass2AssignId, hia] at hh; exact Or.inl hh
  cases hna : e.nameAttr with
  | some n =>
      simp only [pass2Assign, hna] at h
      by_cases hc : n ≠ "" ∧ mapHas m n = false
      · rw [if_pos hc] at h; exact hset n h
      · rw [if_neg hc] at h; exact hid h
  | none =>
      simp only [pass2Assign, hna] at h
      exact hid h

lemma pass2Step_preserve {m : List (String × Nat)} {k : String} {j i : Nat}
    {e : ElemData} (h : mapGet m k = some j) :
    mapGet (pass2Step m i e) k = some j := by
  unfold pass2Step
  split_ifs
  · exact h
  · exact pass2Assign_preserve h
  · exact h

lemma collectPass2_preserve {k : String} {j : Nat} :
    ∀ (elems : List (Nat × ElemData)) (m : List (String × Nat)),
      mapGet m k = some j → mapGet (collectPass2 elems m) k = some j := by
  intro elems
  induction elems with
  | nil => intro m h; exact h
  | cons q0 rest ih =>
      intro m h
      obtain ⟨i0, e0⟩ := q0
      exact ih _ (pass2Step_preserve h)

lemma pass2Step_get_source {m : List (String × Nat)} {k : String} {j i : Nat}
    {e : ElemData} (h : mapGet (pass2Step m i e) k = some j) :
    mapGet m k = some j ∨ (j = i ∧ e.fieldNameAttr = none) := by
  unfold pass2Step at h
  split_ifs at h with h1 h2
  · exact Or.inl h
  · rcases pass2Assign_get_source h with h3 | h3
    · exact Or.inl h3
    · exact Or.inr ⟨h3, Option.not_isSome_iff_eq_none.mp h2⟩
  · exact Or.inl h

lemma collectPass2_source {k : String} {j : Nat} :
    ∀ (elems : List (Nat × ElemData)) (m : List (String × Nat)),
      mapGet (collectPass2 elems m) k = some j →
      mapGet m k = some j ∨
        ∃ q ∈ elems, q.1 = j ∧ q.2.fieldNameAttr = none := by
  intro elems
  induction elems with
  | nil => intro m h; exact Or.inl h
  | cons q0 rest ih =>
      intro m h
      obtain ⟨i0, e0⟩ := q0
      rcases ih _ h with h1 | ⟨q, hq, hqj, hqfn⟩
      · rcases pass2Step_get_source h1 with h2 | ⟨hji, hfn⟩
        · exact Or.inl h2
        · exact Or.inr ⟨(i0, e0), List.mem_cons_self _ _, hji.symm, hfn⟩
      · exact Or.inr ⟨q, List.mem_cons_of_mem _ hq, hqj, hqfn⟩

/-- C7: field-name-marker resolution strictly dominates name (and id).  A
control carrying both a field-name marker fn and a name n is registered only
under fn: looking up fn resolves it and looking up n never does; and any
name string claimed by some field-name-tagged element resolves only to a
field-name-tagged element, so plain name/id registrations for it are
shadowed entirely. -/
theorem C7_fieldName_priority (elems : List (Nat × ElemData)) (i : Nat)
    (e : ElemData) (fn n : String)
    (hnodup : (elems.map Prod.fst).Nodup)
    (hmem : (i, e) ∈ elems)
    (hfn : e.fieldNameAttr = some fn) (hfn0 : fn ≠ "")
    (huniq : ∀ q ∈ elems, q.2.fieldNameAttr = some fn → q = (i, e))
    (hname : e.nameAttr = some n) (hne : fn ≠ n) :
    mapGet (collectFields elems) fn = some i ∧
    mapGet (collectFields elems) n ≠ some i ∧
    (∀ s j, s ≠ "" → (∃ p ∈ elems, p.2.fieldNameAttr = some s) →
      mapGet (collectFields elems) s = some j →
      ∃ q ∈ elems, q.1 = j ∧ q.2.fieldNameAttr = some s) := by
  refine ⟨?_, ?_, ?_⟩
  · exact collectPass2_preserve elems _
      (collectPass1_get_claimed hfn0 elems [] hmem hfn huniq hnodup)
  · intro hcontra
    rcases collectPass2_source elems _ hcontra with h1 | ⟨q, hq, hqj, hqfn⟩
    · rcases collectPass1_get_source elems [] h1 with h2 | ⟨q, hq, hqj, hqfn, _⟩
      · simp [mapGet] at h2
      · obtain ⟨j0, e0⟩ := q
        have hj0 : j0 = i := hqj
        subst hj0
        have he0 : e0 = e := mem_key_unique hnodup hq hmem
        subst he0
        rw [hfn] at hqfn
        exact hne (Option.some.inj hqfn)
    · obtain ⟨j0, e0⟩ := q
      have hj0 : j0 = i := hqj
      subst hj0
      have he0 : e0 = e := mem_key_unique hnodup hq hmem
      subst he0
      rw [hfn] at hqfn
      cases hqfn
  · intro s j hs ⟨p, hp, hpfn⟩ hget
    have hhas : mapHas (collectPass1 elems []) s = true :=
      collectPass1_has hs elems [] ⟨p, hp, hpfn⟩
    obtain ⟨v, hv⟩ := mapGet_of_has hhas
    have hpres : mapGet (collectFields elems) s = some v :=
      collectPass2_preserve elems _ hv
    have hvj : v = j := by
      rw [hget] at hpres
      exact (Option.some.inj hpres).symm
    subst hvj
    rcases collectPass1_get_source elems [] hv with h2 | ⟨q, hq, hqj, hqfn, _⟩
    · simp [mapGet] at h2
    · exact ⟨q, hq, hqj, hqfn⟩

/-- A concrete form for the C7 witness: one control carrying both a
field-name marker and a name, and one plain named control. -/
def c7elems : List (Nat × ElemData) :=
  [(1, { tag := "input", typeAttr := "text",
         fieldNameAttr := some "user-email", nameAttr := some "email" }),
   (2, { tag := "input", typeAttr := "text", nameAttr := some "other" })]

/-- Witness for C7: on the concrete form, the marker value resolves the
control and its name value does not. -/
theorem C7_fieldName_priority_witness :
    mapGet (collectFields c7elems) "user-email" = some 1 ∧
    mapGet (collectFields c7elems) "email" ≠ some 1 := by
  have h := C7_fieldName_priority c7elems 1
    { tag := "input", typeAttr := "text",
      fieldNameAttr := some "user-email", nameAttr := some "email" }
    "user-email" "email" (by decide) (by simp [c7elems]) rfl (by decide)
    (by decide) rfl (by decide)
  exact ⟨h.1, h.2.1⟩

/-! ## The DOM model -/

/-- Lookup in a Nat-keyed association list. -/
def nGet {α : Type} (m : List (Nat × α)) (k : Nat) : Option α :=
  (m.find? (fun p => p.1 = k)).map Prod.snd

/-- Pointwise update of a Nat-keyed association list at one key. -/
def nUpd {α : Type} (m : List (Nat × α)) (k : Nat) (f : α → α) :
    List (Nat × α) :=
  m.map (fun p => if p.1 = k then (k, f p.2) else p)

/-- The document: a store of element data keyed by node id, parent links,
ordered child lists, the top-level nodes in order, and the next fresh node
id. -/
structure Dom where
  next : Nat
  data : List (Nat × ElemData)
  parentM : List (Nat × Nat)
  childrenM : List (Nat × List Nat)
  roots : List Nat
  deriving DecidableEq

def Dom.getData (d : Dom) (i : Nat) : Option ElemData := nGet d.data i

def Dom.dataD (d : Dom) (i : Nat) : ElemData := (d.getData i).getD {}

def Dom.updData (d : Dom) (i : Nat) (f : ElemData → ElemData) : Dom :=
  { d with data := nUpd d.data i f }

def Dom.parentOf (d : Dom) (i : Nat) : Option Nat := nGet d.parentM i

def Dom.childrenOf (d : Dom) (i : Nat) : List Nat :=
  (nGet d.childrenM i).getD []

/-- Traversal fuel: one more than the store size bounds every simple
parent-chain and descendant walk of a well-formed document. -/
def Dom.fuel (d : Dom) : Nat := d.data.length + 1

/-- Pre-order descendants of a node (document order), fuelled. -/
def Dom.descendAux (d : Dom) : Nat → Nat → List Nat
  | 0, _ => []
  | fuel + 1, i => (d.childrenOf i).flatMap (fun c => c :: d.descendAux fuel c)

/-- querySelectorAll document-order descendant list of a node. -/
def Dom.queryAllIn (d : Dom) (root : Nat) : List Nat :=
  d.descendAux d.fuel root

/-- All document nodes in document order. -/
def Dom.docAll (d : Dom) : List Nat :=
  d.roots.flatMap (fun r => r :: d.descendAux d.fuel r)

/-- Whether a selector string begins with the given marker character
(String.startsWith on a one-character marker). -/
def startsWithChar (s : String) (c : Char) : Bool :=
  match s.toList with
  | [] => false
  | c2 :: _ => c2 = c

/-- CSS selector matching, modelled for the selector forms the library is
used with: a class selector, an id selector, or a tag name. -/
def elemMatches (e : ElemData) (sel : String) : Bool :=
  if startsWithChar sel '.' then e.classes.contains (sel.drop 1)
  else if startsWithChar sel '#' then decide (e.idAttr = some (sel.drop 1))
  else decide (e.tag = sel)

def Dom.matchesAt (d : Dom) (i : Nat) (sel : String) : Bool :=
  match d.getData i with
  | some e => elemMatches e sel
  | none => false

/-- document.querySelector: the first matching node in document order. -/
def Dom.docQuerySelector (d : Dom) (sel : String) : Option Nat :=
  d.docAll.find? (fun i => d.matchesAt i sel)

/-- element.querySelector: the first matching descendant. -/
def Dom.queryIn (d : Dom) (root : Nat) (sel : String) : Option Nat :=
  (d.queryAllIn root).find? (fun i => d.matchesAt i sel)

/-- element.closest: the nearest self-or-ancestor matching the selector. -/
def Dom.closestAux (d : Dom) : Nat → Nat → String → Option Nat
  | 0, _, _ => none
  | fuel + 1, i, sel =>
      if d.matchesAt i sel then some i
      else
        match d.parentOf i with
        | some p => d.closestAux fuel p sel
        | none => none

def Dom.closest (d : Dom) (i : Nat) (sel : String) : Option Nat :=
  d.closestAux d.fuel i sel

def listNextAfter : List Nat → Nat → Option Nat
  | [], _ => none
  | a :: rest, i => if a = i then rest.head? else listNextAfter rest i

/-- element.nextElementSibling. -/
def Dom.nextElemSib (d : Dom) (i : Nat) : Option Nat :=
  match d.parentOf i with
  | some p => listNextAfter (d.childrenOf p) i
  | none => none

/-- The label[for=id] query scoped to the form subtree. -/
def Dom.labelForQuery (d : Dom) (root : Nat) (idv : String) : Option Nat :=
  (d.queryAllIn root).find? (fun i =>
    match d.getData i with
    | some e => e.tag = "label" && e.forAttr = some idv
    | none => false)

/-! ## The field registry (FormConnector) -/

/-- The recognized configuration options. -/
structure FieldOptions where
  label : Option String := none
  errorContainer : Option String := none
  errorClass : Option String := none
  fieldClass : Option String := none
  validClass : Option String := none
  invalidClass : Option String := none
  deriving DecidableEq

/-- The option spread of the FormConnector constructor: the default
errorContainer selector unless the caller supplies the key. -/
def mergeConnectorOptions (o : FieldOptions) : FieldOptions :=
  { o with errorContainer :=
      match o.errorContainer with
      | some s => some s
      | none => some ".error-message" }

/-- The registry state: the owning form, the three per-field tables, and the
merged options. -/
structure ConnectorSt where
  formId : Nat
  inputElements : List (String × Nat)
  labels : List (String × Option Nat)
  errorContainers : List (String × Nat)
  options : FieldOptions

/-- Label resolution for one control: a label associated via for=id when the
control has a truthy id, else the nearest ancestor label. -/
def resolveLabel (d : Dom) (formId : Nat) (i : Nat) : Option Nat :=
  let e := d.dataD i
  let l0 :=
    match e.idAttr with
    | some idv => if idv ≠ "" then d.labelForQuery formId idv else none
    | none => none
  match l0 with
  | some l => some l
  | none => d.closest i "label"

/-- The configured-selector branch of error-container resolution, exactly as
compiled: for a non-global selector, the source expression
closest(sel) or parentElement?.querySelector(sel) or
nextElementSibling?.matches(sel) ? nextElementSibling : null
groups as (a or b or c) ? nextElementSibling : null by JS operator
precedence, so whenever any of the three probes succeeds the chosen node is
the next element sibling (which may be absent or may not match). -/
def resolveConfiguredContainer (d : Dom) (opts : FieldOptions) (i : Nat) :
    Option Nat :=
  match opts.errorContainer with
  | some sel =>
      if sel = "" then none
      else if startsWithChar sel '#' then d.docQuerySelector sel
      else
        let cond := (d.closest i sel).isSome ||
          (match d.parentOf i with
           | some p => (d.queryIn p sel).isSome
           | none => false) ||
          (match d.nextElemSib i with
           | some s2 => d.matchesAt s2 sel
           | none => false)
        if cond then d.nextElemSib i else none
  | none => none

/-- The default-convention fallback: a descendant of the control's parent
bearing the default error-marker class, else the control's next element
sibling if it bears that class. -/
def resolveDefaultContainer (d : Dom) (i : Nat) : Option Nat :=
  match d.parentOf i with
  | some p =>
      match d.queryIn p ".error-message" with
      | some c => some c
      | none =>
          match d.nextElemSib i with
          | some s2 =>
              if (d.dataD s2).classes.contains "error-message" then some s2
              else none
          | none => none
  | none => none

/-- Error-container resolution for one control at registry construction. -/
def resolveErrorContainer (d : Dom) (opts : FieldOptions) (i : Nat) :
    Option Nat :=
  match resolveConfiguredContainer d opts i with
  | some c => some c
  | none => resolveDefaultContainer d i

/-- collectLabelsAndErrorContainers: one pass over the registered fields in
insertion order, filling the label and error-container tables. -/
def collectLEAux (d : Dom) (formId : Nat) (opts : FieldOptions) :
    List (String × Nat) → List (String × Option Nat) → List (String × Nat) →
    List (String × Option Nat) × List (String × Nat)
  | [], ls, es => (ls, es)
  | (name, i) :: rest, ls, es =>
      let ls2 := mapSet ls name (resolveLabel d formId i)
      let es2 :=
        match resolveErrorContainer d opts i with
        | some c => mapSet es name c
        | none => es
      collectLEAux d formId opts rest ls2 es2

/-- The FormConnector constructor: merge options, collect fields from the
form subtree in document order, then collect labels and error containers. -/
def mkConnector (d : Dom) (formId : Nat) (options : FieldOptions) :
    ConnectorSt :=
  let opts := mergeConnectorOptions options
  let elems := (d.queryAllIn formId).filterMap
    (fun i => (d.getData i).map (fun e => (i, e)))
  let fields := collectFields elems
  let le := collectLEAux d formId opts fields [] []
  ⟨formId, fields, le.1, le.2, opts⟩

/-- FormConnector.field: registry lookup, null when unknown. -/
def ConnectorSt.fieldOf (c : ConnectorSt) (name : String) : Option Nat :=
  mapGet c.inputElements name

/-- FormConnector.getLabel. -/
def ConnectorSt.getLabel (c : ConnectorSt) (name : String) : Option Nat :=
  (mapGet c.labels name).getD none

/-- FormConnector.getErrorContainer: the cached table, and a fresh global
lookup for a configured global (#) selector even for unknown names. -/
def ConnectorSt.getErrorContainer (c : ConnectorSt) (d : Dom)
    (name : String) : Option Nat :=
  match mapGet c.errorContainers name with
  | some x => some x
  | none =>
      match c.options.errorContainer with
      | some sel =>
          if sel ≠ "" ∧ startsWithChar sel '#' = true then d.docQuerySelector sel
          else none
      | none => none

/-- The document for C5: a form holding a wrapper div bearing the configured
error-container class, which holds the control and a span that does not bear
that class. -/
def c5dom : Dom :=
  { next := 4
  , data := [(0, { tag := "form" }),
             (1, { tag := "div", classes := ["err-box"] }),
             (2, { tag := "input", typeAttr := "text", nameAttr := some "a" }),
             (3, { tag := "span", classes := ["other"] })]
  , parentM := [(1, 0), (2, 1), (3, 1)]
  , childrenM := [(0, [1]), (1, [2, 3])]
  , roots := [0] }

/-- C5 (code bug): with errorContainer ".err-box", an ancestor of the
control (node 1) matches the selector, yet the registry records the
control's next sibling (node 3), which does not match the selector, because
the source's a or b or c ? nextSibling : null expression groups as
(a or b or c) ? nextSibling : null.  The claim's cascade would record the
matching ancestor. -/
theorem C5_container_resolution_eval :
    (mkConnector c5dom 0 { errorContainer := some ".err-box" }).fieldOf "a"
        = some 2 ∧
    (mkConnector c5dom 0
        { errorContainer := some ".err-box" }).getErrorContainer c5dom "a"
        = some 3 ∧
    c5dom.closest 2 ".err-box" = some 1 ∧
    elemMatches (c5dom.dataD 1) ".err-box" = true ∧
    elemMatches (c5dom.dataD 3) ".err-box" = false := by
  refine ⟨?_, ?_, ?_, ?_, ?_⟩ <;> decide

/-! ## The orchestrator (V) -/

/-- classList.add: appends the class unless present. -/
def classListAdd (d : Dom) (i : Nat) (cls : String) : Dom :=
  d.updData i (fun e =>
    { e with classes :=
        if e.classes.contains cls then e.classes else e.classes ++ [cls] })

/-- classList.remove. -/
def classListRemove (d : Dom) (i : Nat) (cls : String) : Dom :=
  d.updData i (fun e =>
    { e with classes := e.classes.filter (fun c => !(c = cls)) })

/-- textContent assignment. -/
def setText (d : Dom) (i : Nat) (s : String) : Dom :=
  d.updData i (fun e => { e with text := s })

/-- style.display assignment. -/
def setDisplay (d : Dom) (i : Nat) (s : String) : Dom :=
  d.updData i (fun e => { e with display := s })

/-- document.createElement: allocate a fresh, detached node. -/
def Dom.allocNode (d : Dom) (dataE : ElemData) : Dom × Nat :=
  ({ d with next := d.next + 1, data := d.data ++ [(d.next, dataE)] }, d.next)

/-- Set a node's child list, adding the entry when absent. -/
def nSetChildren (m : List (Nat × List Nat)) (k : Nat) (v : List Nat) :
    List (Nat × List Nat) :=
  if m.any (fun p => p.1 = k) then nUpd m k (fun _ => v) else m ++ [(k, v)]

/-- Insert newId immediately before the child `before` in an ordered child
list. -/
def insertBeforeChild : List Nat → Nat → Nat → List Nat
  | [], _, _ => []
  | a :: rest, before, newId =>
      if a = before then newId :: a :: rest
      else a :: insertBeforeChild rest before newId

/-- parent.appendChild onto an already-allocated node. -/
def Dom.appendChildTo (d : Dom) (p : Nat) (newId : Nat) : Dom :=
  { d with
    parentM := d.parentM ++ [(newId, p)]
    childrenM := nSetChildren d.childrenM p (d.childrenOf p ++ [newId]) }

/-- The node showError creates when no container is resolvable: a div with
the default error-marker class and a data-field attribute. -/
def createdContainerData (name : String) : ElemData :=
  { tag := "div", classes := ["error-message"], dataField := some name }

/-- The attachment step of showError's container creation: insert right
after the label when the label has a parent and a following sibling, else
append to the control's parent, else leave the node detached.  (The source
consults label.nextSibling, a node-level sibling; the model tracks element
siblings only.) -/
def showErrAttach (d : Dom) (newId : Nat) (label parent : Option Nat) : Dom :=
  match label with
  | some l =>
      (match d.parentOf l, d.nextElemSib l with
       | some lp, some ls =>
          { d with
            parentM := d.parentM ++ [(newId, lp)]
            childrenM := nSetChildren d.childrenM lp
              (insertBeforeChild (d.childrenOf lp) ls newId) }
       | _, _ =>
          match parent with
          | some p => d.appendChildTo p newId
          | none => d)
  | none =>
      match parent with
      | some p => d.appendChildTo p newId
      | none => d

/-- V.showError: mark the control, then write the error text into the
resolved container, creating (and inserting) a new container node when none
resolves. -/
def showError (conn : ConnectorSt) (opts : FieldOptions) (d : Dom)
    (name error : String) : Dom :=
  match conn.fieldOf name with
  | none => d
  | some elemId =>
      let d1 :=
        match opts.validClass with
        | some c => if c = "" then d else classListRemove d elemId c
        | none => d
      let d2 :=
        match opts.invalidClass with
        | some c => if c = "" then d1 else classListAdd d1 elemId c
        | none => d1
      let d3 :=
        match opts.errorClass with
        | some c =>
            if c = "" then classListAdd d2 elemId "error"
            else classListAdd d2 elemId c
        | none => classListAdd d2 elemId "error"
      match conn.getErrorContainer d3 name with
      | some c => setDisplay (setText d3 c error) c "block"
      | none =>
          let alloc := d3.allocNode (createdContainerData name)
          let d4 := showErrAttach alloc.1 alloc.2 (conn.getLabel name)
            (d3.parentOf elemId)
          setDisplay (setText d4 alloc.2 error) alloc.2 "block"

/-- V.clearError: unmark the control and blank/hide the resolved container
when one resolves. -/
def clearError (conn : ConnectorSt) (opts : FieldOptions) (d : Dom)
    (name : String) : Dom :=
  match conn.fieldOf name with
  | none => d
  | some elemId =>
      let d1 :=
        match opts.errorClass with
        | some c =>
            if c = "" then classListRemove d elemId "error"
            else classListRemove d elemId c
        | none => classListRemove d elemId "error"
      let d2 :=
        match opts.invalidClass with
        | some c => if c = "" then d1 else classListRemove d1 elemId c
        | none => d1
      let d3 :=
        match opts.validClass with
        | some c =>
            if c = "" then classListAdd d2 elemId "valid"
            else classListAdd d2 elemId c
        | none => classListAdd d2 elemId "valid"
      match conn.getErrorContainer d3 name with
      | some c => setDisplay (setText d3 c "") c "none"
      | none => d3

/-- The form context derived from the live document: radio-group and
name-attribute lookups are fresh queries over the form subtree. -/
def domFormCtx (d : Dom) (formId : Nat) (rm : String → String → Bool) :
    FormCtx :=
  { checkedRadio := fun nameAttr =>
      match nameAttr with
      | some n =>
          match (d.queryAllIn formId).find? (fun i =>
            match d.getData i with
            | some e => e.tag = "input" && e.typeAttr = "radio" &&
                e.nameAttr = some n && e.checked
            | none => false) with
          | some i => (d.getData i).map (fun e => e.value)
          | none => none
      | none => none
  , valueByName := fun n =>
      match (d.queryAllIn formId).find? (fun i =>
        match d.getData i with
        | some e => e.nameAttr = some n
        | none => false) with
      | some i => (d.getData i).map (fun e => e.value)
      | none => none
  , regexMatch := rm }

/-- The aggregate result of a whole-form pass. -/
structure ValidationResult where
  isValid : Bool
  errors : List (String × Option String)
  deriving DecidableEq

/-- The orchestrator state: the registry, the lazily populated name → engine
map, and the raw options. -/
structure VSt where
  connector : ConnectorSt
  validators : List (String × ValidatorSt)
  options : FieldOptions

/-- The V constructor over a form. -/
def mkV (d : Dom) (formId : Nat) (opts : FieldOptions) : VSt :=
  ⟨mkConnector d formId opts, [], opts⟩

/-- V.field: throws when the registry does not resolve the name; otherwise
returns the existing engine, or creates and registers one on first
access. -/
def VSt.fieldOp (st : VSt) (d : Dom) (rm : String → String → Bool)
    (name : String) : Except String ValidatorSt × VSt :=
  match st.connector.fieldOf name with
  | none => (.error ("Поле \"" ++ name ++ "\" не найдено в форме"), st)
  | some elemId =>
      match mapGet st.validators name with
      | some v => (.ok v, st)
      | none =>
          let v := mkValidator elemId (d.dataD elemId)
            (domFormCtx d st.connector.formId rm)
          (.ok v, { st with validators := mapSet st.validators name v })

/-- A fluent rule attachment through the engine returned by field():
mutates the shared engine held in the orchestrator's map. -/
def VSt.attachRule (st : VSt) (name : String) (r : Rule) : VSt :=
  match mapGet st.validators name with
  | some v =>
      { st with validators := mapSet st.validators name (v.pushRule r) }
  | none => st

/-- The per-field step of a validation pass: run the engine, then apply the
error or clean presentation transition. -/
def applyFieldResult (conn : ConnectorSt) (opts : FieldOptions) (d : Dom)
    (name : String) (err : Option String) : Dom :=
  match err with
  | some s =>
      if s = "" then clearError conn opts d name
      else showError conn opts d name s
  | none => clearError conn opts d name

/-- The loop of V.validate over the tracked engines in insertion order. -/
def vLoop (conn : ConnectorSt) (opts : FieldOptions)
    (rm : String → String → Bool) :
    List (String × ValidatorSt) → Dom →
    List (String × Option String) × Bool × List (String × ValidatorSt) × Dom
  | [], d => ([], true, [], d)
  | (n, v) :: rest, d =>
      let ctx := domFormCtx d conn.formId rm
      let res := v.validateOn (d.dataD v.elemId) ctx
      let d2 := applyFieldResult conn opts d n res.1
      let tail := vLoop conn opts rm rest d2
      ((n, res.1) :: tail.1, (!jsTruthyStr res.1) && tail.2.1,
        (n, res.2) :: tail.2.2.1, tail.2.2.2)

/-- V.validate: run every tracked engine, apply the per-field transition,
and return the aggregate result. -/
def VSt.validate (st : VSt) (d : Dom) (rm : String → String → Bool) :
    ValidationResult × VSt × Dom :=
  let r := vLoop st.connector st.options rm st.validators d
  (⟨r.2.1, r.1⟩, { st with validators := r.2.2.1 }, r.2.2.2)

/-- V.validateField: throws when the field was never touched via field();
otherwise runs that one engine and applies its transition. -/
def VSt.validateField (st : VSt) (d : Dom) (rm : String → String → Bool)
    (name : String) : Except String (Option String) × VSt × Dom :=
  match mapGet st.validators name with
  | none => (.error ("Валидатор для поля \"" ++ name ++ "\" не найден"), st, d)
  | some v =>
      let ctx := domFormCtx d st.connector.formId rm
      let res := v.validateOn (d.dataD v.elemId) ctx
      let st2 := { st with validators := mapSet st.validators name res.2 }
      let d2 := applyFieldResult st.connector st.options d name res.1
      (.ok res.1, st2, d2)

/-- Whether an Except result is the thrown case. -/
def isThrow {ε α : Type} : Except ε α → Bool
  | .error _ => true
  | .ok _ => false

/-- C6: field(name) throws exactly when the registry does not resolve the
name, and validateField(name) throws exactly when no engine exists for the
name; in both throwing cases the orchestrator state (and, for
validateField, the document) is unchanged and the error propagates as the
operation's result. -/
theorem C6_lookup_errors (st : VSt) (d : Dom) (rm : String → String → Bool)
    (name : String) :
    (isThrow (st.fieldOp d rm name).1 = true ↔
      st.connector.fieldOf name = none) ∧
    (isThrow (st.fieldOp d rm name).1 = true → (st.fieldOp d rm name).2 = st) ∧
    (isThrow (st.validateField d rm name).1 = true ↔
      mapGet st.validators name = none) ∧
    (isThrow (st.validateField d rm name).1 = true →
      (st.validateField d rm name).2.1 = st ∧
      (st.validateField d rm name).2.2 = d) := by
  refine ⟨?_, ?_, ?_, ?_⟩
  · unfold VSt.fieldOp
    cases hf : st.connector.fieldOf name
    · simp [isThrow]
    · cases hg : mapGet st.validators name <;> simp [isThrow]
  · unfold VSt.fieldOp
    cases hf : st.connector.fieldOf name
    · simp [isThrow]
    · cases hg : mapGet st.validators name <;> simp [isThrow]
  · unfold VSt.validateField
    cases hg : mapGet st.validators name <;> simp [isThrow]
  · unfold VSt.validateField
    cases hg : mapGet st.validators name <;> simp [isThrow]

/-- Witness for C6: on a fresh orchestrator over the C5 document, an
unknown name makes field() throw with the state unchanged, and
validateField() on a never-touched name throws with state and document
unchanged. -/
theorem C6_lookup_errors_witness :
    isThrow ((mkV c5dom 0 {}).fieldOp c5dom (fun _ _ => false) "nope").1
        = true ∧
    ((mkV c5dom 0 {}).fieldOp c5dom (fun _ _ => false) "nope").2
        = mkV c5dom 0 {} ∧
    ((mkV c5dom 0 {}).validateField c5dom (fun _ _ => false) "a").2.2
        = c5dom := by
  have h := C6_lookup_errors (mkV c5dom 0 {}) c5dom (fun _ _ => false) "nope"
  have h2 := C6_lookup_errors (mkV c5dom 0 {}) c5dom (fun _ _ => false) "a"
  have hthrow : isThrow
      ((mkV c5dom 0 {}).fieldOp c5dom (fun _ _ => false) "nope").1 = true :=
    h.1.mpr (by decide)
  refine ⟨hthrow, h.2.1 hthrow, ?_⟩
  exact (h2.2.2.2 (h2.2.2.1.mpr rfl)).2

lemma fieldOp_of_found {st : VSt} {elemId : Nat} {v : ValidatorSt}
    {name : String} (d : Dom) (rm : String → String → Bool)
    (hf : st.connector.fieldOf name = some elemId)
    (hg : mapGet st.validators name = some v) :
    st.fieldOp d rm name = (.ok v, st) := by
  unfold VSt.fieldOp
  rw [hf, hg]

/-- C8: at most one engine ever exists per resolvable name.  Once
field(name) has returned an engine, every later field(name) call — with any
intervening document state — returns that same engine and leaves the
orchestrator unchanged; and a rule attached through the returned engine is
seen by the next field(name) call, so rules accumulate on one shared
ordered list. -/
theorem C8_one_engine_per_name (st : VSt) (d d2 : Dom)
    (rm rm2 : String → String → Bool) (name : String)
    (v1 : ValidatorSt) (st1 : VSt)
    (h : st.fieldOp d rm name = (.ok v1, st1)) :
    st1.fieldOp d2 rm2 name = (.ok v1, st1) ∧
    ∀ r : Rule, (st1.attachRule name r).fieldOp d2 rm2 name
        = (.ok (v1.pushRule r), st1.attachRule name r) := by
  unfold VSt.fieldOp at h
  obtain ⟨elemId, hf, hg⟩ : ∃ elemId,
      st1.connector.fieldOf name = some elemId ∧
      mapGet st1.validators name = some v1 := by
    cases hf : st.connector.fieldOf name with
    | none => rw [hf] at h; simp at h
    | some elemId =>
        rw [hf] at h
        cases hg : mapGet st.validators name with
        | some v =>
            rw [hg] at h
            have hv : v = v1 := by
              have := congrArg Prod.fst h; simpa using this
            have hst : st = st1 := by
              have := congrArg Prod.snd h; simpa using this
            subst hst; subst hv
            exact ⟨elemId, hf, hg⟩
        | none =>
            rw [hg] at h
            have hv : mkValidator elemId (d.dataD elemId)
                (domFormCtx d st.connector.formId rm) = v1 := by
              have := congrArg Prod.fst h; simpa using this
            have hst : ({ st with validators := mapSet st.validators name (mkValidator elemId (d.dataD elemId) (domFormCtx d st.connector.formId rm)) } : VSt) = st1 := by
              have := congrArg Prod.snd h; simpa using this
            refine ⟨elemId, ?_, ?_⟩
            · rw [← hst]; exact hf
            · rw [← hst, ← hv]
              exact mapGet_mapSet_self _ _ _
  refine ⟨fieldOp_of_found d2 rm2 hf hg, ?_⟩
  intro r
  have hat : st1.attachRule name r = ({ st1 with validators := mapSet st1.validators name (v1.pushRule r) } : VSt) := by
    unfold VSt.attachRule
    rw [hg]
  rw [hat]
  exact fieldOp_of_found d2 rm2 hf (mapGet_mapSet_self _ _ _)

/-- Witness for C8: a concrete first field() call on the C5 document,
followed by a second call and an attachment. -/
theorem C8_one_engine_per_name_witness :
    (((mkV c5dom 0 {}).fieldOp c5dom (fun _ _ => false) "a").2).fieldOp c5dom
        (fun _ _ => false) "a"
      = (((mkV c5dom 0 {}).fieldOp c5dom (fun _ _ => false) "a").1,
         ((mkV c5dom 0 {}).fieldOp c5dom (fun _ _ => false) "a").2) := by
  have h := C8_one_engine_per_name (mkV c5dom 0 {}) c5dom c5dom
    (fun _ _ => false) (fun _ _ => false) "a"
    (mkValidator 2 (c5dom.dataD 2) (domFormCtx c5dom 0 (fun _ _ => false)))
    (((mkV c5dom 0 {}).fieldOp c5dom (fun _ _ => false) "a").2) rfl
  exact h.1.trans rfl

lemma validateRules_none_or_truthy (ctx : FormCtx) (v : Value) :
    ∀ rules : List Rule, validateRules ctx v rules = none ∨
      ∃ s, validateRules ctx v rules = some s ∧ s ≠ "" := by
  intro rules
  induction rules with
  | nil => exact Or.inl rfl
  | cons r rs ih =>
      unfold validateRules
      cases he : checkRule ctx v r with
      | none => simpa [jsTruthyStr] using ih
      | some s =>
          by_cases hs : s = ""
          · simpa [jsTruthyStr, hs] using ih
          · exact Or.inr ⟨s, by simp [jsTruthyStr, hs], hs⟩

lemma validateOn_none_or_truthy (st : ValidatorSt) (e : ElemData)
    (ctx : FormCtx) :
    (st.validateOn e ctx).1 = none ∨
      ∃ s, (st.validateOn e ctx).1 = some s ∧ s ≠ "" := by
  rcases validateRules_none_or_truthy ctx (getValue e ctx) st.rules with
    h | ⟨s, hs, hne⟩
  · simp only [ValidatorSt.validateOn, h]
    unfold nativeCheck
    split_ifs with h1 h2
    · refine Or.inr ⟨jsOrStr e.validationMessage "Неверное значение", rfl, ?_⟩
      unfold jsOrStr
      split_ifs with h3
      · decide
      · exact h3
    · exact Or.inl rfl
    · exact Or.inl rfl
  · simp only [ValidatorSt.validateOn, hs]
    exact Or.inr ⟨s, rfl, hne⟩

lemma vLoop_isValid_iff (conn : ConnectorSt) (opts : FieldOptions)
    (rm : String → String → Bool) :
    ∀ (vs : List (String × ValidatorSt)) (d : Dom),
      ((vLoop conn opts rm vs d).2.1 = true ↔
        ∀ p ∈ (vLoop conn opts rm vs d).1, p.2 = none) := by
  intro vs
  induction vs with
  | nil => intro d; simp [vLoop]
  | cons q rest ih =>
      intro d
      obtain ⟨n, v⟩ := q
      simp only [vLoop]
      rcases validateOn_none_or_truthy v (d.dataD v.elemId)
          (domFormCtx d conn.formId rm) with h | ⟨s, hs, hne⟩
      · rw [h]
        simp [jsTruthyStr, ih]
      · rw [hs]
        simp [jsTruthyStr, hne]

/-- C9: the aggregate result of validate() has isValid true exactly when
every entry of the errors mapping is null; and on an orchestrator with no
touched fields, validate() returns isValid true with an empty errors
mapping, leaves the document untouched, and leaves the orchestrator state
unchanged. -/
theorem C9_isValid_iff_all_null (st : VSt) (d : Dom)
    (rm : String → String → Bool) :
    ((st.validate d rm).1.isValid = true ↔
      ∀ p ∈ (st.validate d rm).1.errors, p.2 = none) ∧
    (st.validators = [] →
      (st.validate d rm).1 = ⟨true, []⟩ ∧
      (st.validate d rm).2.2 = d ∧ (st.validate d rm).2.1 = st) := by
  constructor
  · have := vLoop_isValid_iff st.connector st.options rm st.validators d
    simpa [VSt.validate] using this
  · intro h
    obtain ⟨conn, vs, opts⟩ := st
    simp only at h
    subst h
    simp [VSt.validate, vLoop]

/-- Witness for C9: a fresh orchestrator over the C5 document validates to
isValid true with no errors and no document change. -/
theorem C9_isValid_iff_all_null_witness :
    ((mkV c5dom 0 {}).validate c5dom (fun _ _ => false)).1
        = ⟨true, []⟩ ∧
    ((mkV c5dom 0 {}).validate c5dom (fun _ _ => false)).2.2 = c5dom := by
  have h := (C9_isValid_iff_all_null (mkV c5dom 0 {}) c5dom
    (fun _ _ => false)).2 rfl
  exact ⟨h.1, h.2.1⟩

/-! ## C4: repeated failing passes and the error container -/

/-- The document for C4: a form with one wrapper div holding a required,
empty, natively-invalid text input; no error container exists anywhere. -/
def c4dom : Dom :=
  { next := 3
  , data := [(0, { tag := "form" }),
             (1, { tag := "div" }),
             (2, { tag := "input", typeAttr := "text",
                   nameAttr := some "email", required := true,
                   validityValid := false })]
  , parentM := [(1, 0), (2, 1)]
  , childrenM := [(0, [1]), (1, [2])]
  , roots := [0] }

/-- A regular-expression engine that matches nothing (no pattern rules are
exercised in the concrete scenarios). -/
def rmF : String → String → Bool := fun _ _ => false

/-- The orchestrator after field("email") on the C4 document. -/
def c4st0 : VSt := ((mkV c4dom 0 {}).fieldOp c4dom rmF "email").2

/-- The first whole-form pass. -/
def c4run1 : ValidationResult × VSt × Dom := c4st0.validate c4dom rmF

/-- The second whole-form pass, with no intervening value change. -/
def c4run2 : ValidationResult × VSt × Dom :=
  (c4run1.2.1).validate c4run1.2.2 rmF

/-- How many children of a node bear the default error-marker class. -/
def countErrMsgChildren (d : Dom) (p : Nat) : Nat :=
  (d.childrenOf p).countP (fun i =>
    match d.getData i with
    | some e => e.classes.contains "error-message"
    | none => false)

/-- C4 (code bug): two successive validate() calls with no value change
return identical results, but the second failing pass appends a second
error-container node to the control's parent (the container created by the
first pass is never registered in the connector's cached table, so the
second pass resolves no container and creates another), so the DOM states
differ — against the claimed idempotence. -/
theorem C4_duplicate_error_containers :
    c4run1.1 = c4run2.1 ∧
    countErrMsgChildren c4run1.2.2 1 = 1 ∧
    countErrMsgChildren c4run2.2.2 1 = 2 ∧
    c4run1.2.2 ≠ c4run2.2.2 := by
  refine ⟨?_, ?_, ?_, ?_⟩ <;> decide

/-! ## C10: the frame of validateField -/

lemma nGet_cons {α : Type} (p : Nat × α) (rest : List (Nat × α)) (k : Nat) :
    nGet (p :: rest) k = if p.1 = k then some p.2 else nGet rest k := by
  by_cases h : p.1 = k <;> simp [nGet, List.find?_cons, h]

lemma nUpd_cons {α : Type} (p : Nat × α) (rest : List (Nat × α)) (j : Nat)
    (f : α → α) :
    nUpd (p :: rest) j f
      = (if p.1 = j then (j, f p.2) else p) :: nUpd rest j f := rfl

lemma nGet_nUpd_ne {α : Type} (m : List (Nat × α)) {i j : Nat}
    (f : α → α) (h : i ≠ j) : nGet (nUpd m j f) i = nGet m i := by
  induction m with
  | nil => rfl
  | cons p rest ih =>
      by_cases hp : p.1 = j
      · rw [nUpd_cons, if_pos hp, nGet_cons, nGet_cons]
        rw [if_neg (show ¬((j, f p.2).1 = i) from by
          simpa using fun q => h q.symm)]
        rw [if_neg (show ¬(p.1 = i) from by
          rw [hp]; exact fun q => h q.symm)]
        exact ih
      · rw [nUpd_cons, if_neg hp, nGet_cons, nGet_cons]
        by_cases hq : p.1 = i
        · rw [if_pos hq, if_pos hq]
        · rw [if_neg hq, if_neg hq]; exact ih

lemma nGet_nUpd_self {α : Type} (m : List (Nat × α)) (j : Nat) (f : α → α) :
    nGet (nUpd m j f) j = (nGet m j).map f := by
  induction m with
  | nil => rfl
  | cons p rest ih =>
      by_cases hp : p.1 = j
      · rw [nUpd_cons, if_pos hp, nGet_cons, nGet_cons, if_pos hp,
          if_pos (show (j, f p.2).1 = j from rfl)]
        rfl
      · rw [nUpd_cons, if_neg hp, nGet_cons, nGet_cons, if_neg hp, if_neg hp]
        exact ih

lemma nGet_append_ne {α : Type} (m : List (Nat × α)) {i k : Nat} (v : α)
    (h : i ≠ k) : nGet (m ++ [(k, v)]) i = nGet m i := by
  induction m with
  | nil =>
      show nGet [(k, v)] i = nGet [] i
      rw [nGet_cons, if_neg (show ¬((k, v).1 = i) from fun q => h q.symm)]
  | cons p rest ih =>
      rw [List.cons_append, nGet_cons, nGet_cons]
      by_cases hq : p.1 = i
      · rw [if_pos hq, if_pos hq]
      · rw [if_neg hq, if_neg hq]; exact ih

lemma getData_updData_ne {d : Dom} {i j : Nat} {f : ElemData → ElemData}
    (h : i ≠ j) : (d.updData j f).getData i = d.getData i :=
  nGet_nUpd_ne d.data f h

lemma getData_updData_self (d : Dom) (j : Nat) (f : ElemData → ElemData) :
    (d.updData j f).getData j = (d.getData j).map f :=
  nGet_nUpd_self d.data j f

lemma getData_appendChildTo (d : Dom) (p newId i : Nat) :
    (d.appendChildTo p newId).getData i = d.getData i := rfl

lemma getData_showErrAttach (d : Dom) (newId i : Nat)
    (label parent : Option Nat) :
    (showErrAttach d newId label parent).getData i = d.getData i := by
  unfold showErrAttach
  rcases label with _ | l
  · rcases parent with _ | p <;> rfl
  · rcases hpl : d.parentOf l with _ | lp <;>
      rcases hsl : d.nextElemSib l with _ | ls <;>
      rcases parent with _ | p <;>
      simp only [hpl, hsl] <;> rfl

lemma next_updData (d : Dom) (j : Nat) (f : ElemData → ElemData) :
    (d.updData j f).next = d.next := rfl

/-- The classes projection is untouched by text/display writes anywhere and
by class writes at other nodes. -/
lemma classes_setText (d : Dom) (j i : Nat) (s : String) :
    ((setText d j s).getData i).map ElemData.classes
      = (d.getData i).map ElemData.classes := by
  by_cases h : i = j
  · subst h
    rw [setText, getData_updData_self]
    cases d.getData i <;> rfl
  · rw [setText, getData_updData_ne h]

lemma classes_setDisplay (d : Dom) (j i : Nat) (s : String) :
    ((setDisplay d j s).getData i).map ElemData.classes
      = (d.getData i).map ElemData.classes := by
  by_cases h : i = j
  · subst h
    rw [setDisplay, getData_updData_self]
    cases d.getData i <;> rfl
  · rw [setDisplay, getData_updData_ne h]

lemma getData_classMutation_ne {d : Dom} {j i : Nat} (c : String)
    (h : i ≠ j) :
    (classListAdd d j c).getData i = d.getData i ∧
    (classListRemove d j c).getData i = d.getData i :=
  ⟨getData_updData_ne h, getData_updData_ne h⟩

/-- The class-marking prefix of showError: the document after the
valid/invalid/error class writes on the control. -/
def showErrorMark (opts : FieldOptions) (d : Dom) (elemId : Nat) : Dom :=
  let d1 :=
    match opts.validClass with
    | some c => if c = "" then d else classListRemove d elemId c
    | none => d
  let d2 :=
    match opts.invalidClass with
    | some c => if c = "" then d1 else classListAdd d1 elemId c
    | none => d1
  match opts.errorClass with
  | some c =>
      if c = "" then classListAdd d2 elemId "error"
      else classListAdd d2 elemId c
  | none => classListAdd d2 elemId "error"

lemma showError_eq_mark (conn : ConnectorSt) (opts : FieldOptions) (d : Dom)
    (name error : String) (elemId : Nat)
    (hf : conn.fieldOf name = some elemId) :
    showError conn opts d name error =
      (let d3 := showErrorMark opts d elemId
       match conn.getErrorContainer d3 name with
       | some c => setDisplay (setText d3 c error) c "block"
       | none =>
           let alloc := d3.allocNode (createdContainerData name)
           let d4 := showErrAttach alloc.1 alloc.2 (conn.getLabel name)
             (d3.parentOf elemId)
           setDisplay (setText d4 alloc.2 error) alloc.2 "block") := by
  unfold showError showErrorMark
  rw [hf]

lemma getData_showErrorMark_ne {opts : FieldOptions} {d : Dom}
    {elemId i : Nat} (h : i ≠ elemId) :
    (showErrorMark opts d elemId).getData i = d.getData i := by
  unfold showErrorMark
  cases opts.validClass <;> cases opts.invalidClass <;>
    cases opts.errorClass <;>
    simp only [classListAdd, classListRemove] <;> (try split_ifs) <;>
    simp [getData_updData_ne h]

lemma next_showErrorMark (opts : FieldOptions) (d : Dom) (elemId : Nat) :
    (showErrorMark opts d elemId).next = d.next := by
  unfold showErrorMark
  cases opts.validClass <;> cases opts.invalidClass <;>
    cases opts.errorClass <;>
    simp only [classListAdd, classListRemove] <;> (try split_ifs) <;> rfl

lemma classes_showErrorMark_ne {opts : FieldOptions} {d : Dom}
    {elemId i : Nat} (h : i ≠ elemId) :
    ((showErrorMark opts d elemId).getData i).map ElemData.classes
      = (d.getData i).map ElemData.classes := by
  rw [getData_showErrorMark_ne h]

/-- Frame of showError: nodes other than the named control, the resolved
container, and the freshly allocated node keep their data; nodes other than
the control and the fresh node keep their class lists in any case. -/
lemma showError_frame (conn : ConnectorSt) (opts : FieldOptions) (d : Dom)
    (name error : String) :
    ∃ ctrlOpt contOpt : Option Nat,
      ctrlOpt = conn.fieldOf name ∧
      (∀ i, ctrlOpt ≠ some i → i ≠ d.next →
        ((showError conn opts d name error).getData i).map ElemData.classes
          = (d.getData i).map ElemData.classes) ∧
      (∀ i, ctrlOpt ≠ some i → contOpt ≠ some i → i ≠ d.next →
        (showError conn opts d name error).getData i = d.getData i) := by
  cases hf : conn.fieldOf name with
  | none =>
      refine ⟨none, none, rfl, ?_, ?_⟩ <;> intro i _ <;>
        simp [showError, hf]
  | some elemId =>
      rw [showError_eq_mark conn opts d name error elemId hf]
      set d3 := showErrorMark opts d elemId with hd3
      have hnext : d3.next = d.next := next_showErrorMark opts d elemId
      cases hc : conn.getErrorContainer d3 name with
      | some c =>
          refine ⟨some elemId, some c, rfl, ?_, ?_⟩
          · intro i hi hfr
            have hie : i ≠ elemId := fun q => hi (by rw [q])
            simp only [hc]
            rw [classes_setDisplay, classes_setText]
            exact classes_showErrorMark_ne hie
          · intro i hi hci hfr
            have hie : i ≠ elemId := fun q => hi (by rw [q])
            have hic : i ≠ c := fun q => hci (by rw [q])
            simp only [hc]
            rw [setDisplay, getData_updData_ne hic, setText,
              getData_updData_ne hic]
            exact getData_showErrorMark_ne hie
      | none =>
          refine ⟨some elemId, none, rfl, ?_, ?_⟩
          · intro i hi hfr
            have hie : i ≠ elemId := fun q => hi (by rw [q])
            have hifr : i ≠ d3.next := by rw [hnext]; exact hfr
            have halloc : (d3.allocNode (createdContainerData name)).2
                = d3.next := rfl
            have halloc2 : (d3.allocNode (createdContainerData name)).1.getData
                i = d3.getData i :=
              nGet_append_ne d3.data (createdContainerData name) hifr
            simp only [hc]
            rw [halloc, classes_setDisplay, classes_setText,
              getData_showErrAttach, halloc2]
            exact classes_showErrorMark_ne hie
          · intro i hi _ hfr
            have hie : i ≠ elemId := fun q => hi (by rw [q])
            have hifr : i ≠ d3.next := by rw [hnext]; exact hfr
            have halloc : (d3.allocNode (createdContainerData name)).2
                = d3.next := rfl
            have halloc2 : (d3.allocNode (createdContainerData name)).1.getData
                i = d3.getData i :=
              nGet_append_ne d3.data (createdContainerData name) hifr
            simp only [hc]
            rw [halloc, setDisplay, getData_updData_ne hifr, setText,
              getData_updData_ne hifr, getData_showErrAttach, halloc2]
            exact getData_showErrorMark_ne hie

/-- The class-marking prefix of clearError. -/
def clearErrorMark (opts : FieldOptions) (d : Dom) (elemId : Nat) : Dom :=
  let d1 :=
    match opts.errorClass with
    | some c =>
        if c = "" then classListRemove d elemId "error"
        else classListRemove d elemId c
    | none => classListRemove d elemId "error"
  let d2 :=
    match opts.invalidClass with
    | some c => if c = "" then d1 else classListRemove d1 elemId c
    | none => d1
  match opts.validClass with
  | some c =>
      if c = "" then classListAdd d2 elemId "valid"
      else classListAdd d2 elemId c
  | none => classListAdd d2 elemId "valid"

lemma clearError_eq_mark (conn : ConnectorSt) (opts : FieldOptions) (d : Dom)
    (name : String) (elemId : Nat)
    (hf : conn.fieldOf name = some elemId) :
    clearError conn opts d name =
      (let d3 := clearErrorMark opts d elemId
       match conn.getErrorContainer d3 name with
       | some c => setDisplay (setText d3 c "") c "none"
       | none => d3) := by
  unfold clearError clearErrorMark
  rw [hf]

lemma getData_clearErrorMark_ne {opts : FieldOptions} {d : Dom}
    {elemId i : Nat} (h : i ≠ elemId) :
    (clearErrorMark opts d elemId).getData i = d.getData i := by
  unfold clearErrorMark
  cases opts.errorClass <;> cases opts.invalidClass <;>
    cases opts.validClass <;>
    simp only [classListAdd, classListRemove] <;> (try split_ifs) <;>
    simp [getData_updData_ne h]

/-- Frame of clearError: nodes other than the named control and the
resolved container keep their data; nodes other than the control keep their
class lists in any case. -/
lemma clearError_frame (conn : ConnectorSt) (opts : FieldOptions) (d : Dom)
    (name : String) :
    ∃ ctrlOpt contOpt : Option Nat,
      ctrlOpt = conn.fieldOf name ∧
      (∀ i, ctrlOpt ≠ some i →
        ((clearError conn opts d name).getData i).map ElemData.classes
          = (d.getData i).map ElemData.classes) ∧
      (∀ i, ctrlOpt ≠ some i → contOpt ≠ some i →
        (clearError conn opts d name).getData i = d.getData i) := by
  cases hf : conn.fieldOf name with
  | none =>
      refine ⟨none, none, rfl, ?_, ?_⟩ <;> intro i _ <;>
        simp [clearError, hf]
  | some elemId =>
      rw [clearError_eq_mark conn opts d name elemId hf]
      set d3 := clearErrorMark opts d elemId with hd3
      cases hc : conn.getErrorContainer d3 name with
      | some c =>
          refine ⟨some elemId, some c, rfl, ?_, ?_⟩
          · intro i hi
            have hie : i ≠ elemId := fun q => hi (by rw [q])
            simp only [hc]
            rw [classes_setDisplay, classes_setText]
            rw [getData_clearErrorMark_ne hie]
          · intro i hi hci
            have hie : i ≠ elemId := fun q => hi (by rw [q])
            have hic : i ≠ c := fun q => hci (by rw [q])
            simp only [hc]
            rw [setDisplay, getData_updData_ne hic, setText,
              getData_updData_ne hic]
            exact getData_clearErrorMark_ne hie
      | none =>
          refine ⟨some elemId, none, rfl, ?_, ?_⟩
          · intro i hi
            have hie : i ≠ elemId := fun q => hi (by rw [q])
            simp only [hc]
            rw [getData_clearErrorMark_ne hie]
          · intro i hi _
            have hie : i ≠ elemId := fun q => hi (by rw [q])
            simp only [hc]
            exact getData_clearErrorMark_ne hie

/-- C10 (amended): validateField(name) mutates only the named field's
presentation: the class lists it writes are on the named field's control
alone, and the only other nodes it can touch are the error container it
resolves for that field and one freshly created container node.  Any other
field's control keeps its class list, and any other field's error container
keeps its text and visibility provided it is a distinct node from the named
field's resolved container. -/
theorem C10_validateField_frame (st : VSt) (d : Dom)
    (rm : String → String → Bool) (name : String)
    (r : Option String) (st2 : VSt) (d2 : Dom)
    (h : st.validateField d rm name = (.ok r, st2, d2)) :
    ∃ ctrlOpt contOpt : Option Nat,
      ctrlOpt = st.connector.fieldOf name ∧
      (∀ i, ctrlOpt ≠ some i → i ≠ d.next →
        (d2.getData i).map ElemData.classes
          = (d.getData i).map ElemData.classes) ∧
      (∀ i, ctrlOpt ≠ some i → contOpt ≠ some i → i ≠ d.next →
        d2.getData i = d.getData i) := by
  cases hg : mapGet st.validators name with
  | none =>
      rw [VSt.validateField, hg] at h
      have := congrArg (fun p => p.1) h
      simp at this
  | some v =>
      simp only [VSt.validateField, hg] at h
      have hd2 : applyFieldResult st.connector st.options d name
          (v.validateOn (d.dataD v.elemId)
            (domFormCtx d st.connector.formId rm)).1 = d2 := by
        have := congrArg (fun p => p.2.2) h
        simpa using this
      rw [applyFieldResult.eq_def] at hd2
      cases herr : (v.validateOn (d.dataD v.elemId)
          (domFormCtx d st.connector.formId rm)).1 with
      | none =>
          simp only [herr] at hd2
          obtain ⟨co, cc, h1, h2, h3⟩ :=
            clearError_frame st.connector st.options d name
          rw [hd2] at h2 h3
          exact ⟨co, cc, h1, fun i hi _ => h2 i hi,
            fun i hi hci _ => h3 i hi hci⟩
      | some s =>
          simp only [herr] at hd2
          by_cases hs : s = ""
          · rw [if_pos hs] at hd2
            obtain ⟨co, cc, h1, h2, h3⟩ :=
              clearError_frame st.connector st.options d name
            rw [hd2] at h2 h3
            exact ⟨co, cc, h1, fun i hi _ => h2 i hi,
              fun i hi hci _ => h3 i hi hci⟩
          · rw [if_neg hs] at hd2
            obtain ⟨co, cc, h1, h2, h3⟩ :=
              showError_frame st.connector st.options d name s
            rw [hd2] at h2 h3
            exact ⟨co, cc, h1, h2, h3⟩

/-- The document for the C10 counterexample: a form holding two inputs, and
a global error container div with id shared outside the form. -/
def c10dom : Dom :=
  { next := 6
  , data := [(0, { tag := "form" }),
             (1, { tag := "input", typeAttr := "text", nameAttr := some "a",
                   required := true, validityValid := false }),
             (2, { tag := "input", typeAttr := "text",
                   nameAttr := some "b" }),
             (5, { tag := "div", idAttr := some "shared" })]
  , parentM := [(1, 0), (2, 0)]
  , childrenM := [(0, [1, 2])]
  , roots := [0, 5] }

/-- The orchestrator for C10, configured with the global container selector,
after field("a"). -/
def c10st : VSt :=
  ((mkV c10dom 0 { errorContainer := some "#shared" }).fieldOp c10dom rmF
    "a").2

/-- One validateField("a") call on the C10 document. -/
def c10run : Except String (Option String) × VSt × Dom :=
  c10st.validateField c10dom rmF "a"

/-- C10 (counterexample): the claim fails as stated.  Fields a and b share
the globally configured error container (node 5).  Before validateField("a")
that container's text is empty; afterwards it holds a's error message — so
the text of another field's error container was changed by the call. -/
theorem C10_counterexample :
    c10st.connector.fieldOf "b" = some 2 ∧
    c10st.connector.getErrorContainer c10dom "b" = some 5 ∧
    (c10dom.dataD 5).text = "" ∧
    ((c10run.2.2).dataD 5).text = "Поле обязательно для заполнения" ∧
    ("Поле обязательно для заполнения" : String) ≠ "" := by
  refine ⟨?_, ?_, ?_, ?_, ?_⟩ <;> decide

/-- Witness for C10 (amended): on the C10 document, the other field's
control (node 2) keeps its class list across validateField("a"). -/
theorem C10_validateField_frame_witness :
    ((c10run.2.2).getData 2).map ElemData.classes
      = (c10dom.getData 2).map ElemData.classes := by
  obtain ⟨ctrlOpt, contOpt, hco, hcl, _⟩ :=
    C10_validateField_frame c10st c10dom rmF "a"
      (some "Поле обязательно для заполнения") c10run.2.1 c10run.2.2 rfl
  have h1 : ctrlOpt = some 1 := by rw [hco]; rfl
  refine hcl 2 ?_ ?_
  · rw [h1]; decide
  · decide

end TsV
